import Mathlib

/-!
# Corpus-to-index pipeline of `server/esproject.go`

A shallow embedding of `parseBookFile`, `insertBookData`, `resetIndices`,
`readAndInsertBooks` and the helpers they call, followed by the properties
established about them.

Conventions.
* A Go `string` is a sequence of bytes; it is embedded as `List Nat`
  (`GoString`), every element of a real string being below 256.
* Go `int` values (offsets, lengths) are embedded as `Int`; the lengths that
  occur are lengths of strings held in memory, far below `2^63`.
* `log.Fatal` and a run-time panic end `parseBookFile` without a result; it is
  embedded as a function into `Except Failure ParseBook`.
* The Elasticsearch client is an external collaborator. `bulk.Do(ctx)` is
  embedded as a query to a `Store`, which sees the batches of the earlier
  calls and the batch of this one and answers whether the call succeeds; on
  an empty batch the client fails by itself and sends nothing (`bulkDo`). The
  administrative operations act on a `Cluster`, the indices by name, and may
  fail for outside reasons (`AdminFaults`).
-/

namespace ESProject

/-- A Go string: its bytes. -/
abbrev GoString := List Nat

/-- The bytes of an ASCII string literal of the source. -/
def lit (s : String) : GoString := s.toList.map Char.toNat

/-! ## Data model (`ParseBook`, `RequestData`) -/

/-- The struct `ParseBook` (lines 44-48). -/
structure ParseBook where
  title : GoString
  author : GoString
  paragraphs : List GoString
  deriving DecidableEq, Repr

/-- The struct `RequestData` (lines 50-55). -/
structure RequestData where
  Location : Int
  Text : GoString
  Title : GoString
  Author : GoString
  deriving DecidableEq, Repr

/-! ## `insertBookData` (lines 196-233) -/

/-- Behaviour of the store on `bulk.Do`: given the batches of the calls made so
far and the batch of this call, does the call succeed (`err == nil`)? -/
abbrev Store := List (List RequestData) → List RequestData → Bool

/-- One `bulk.Do(ctx)` call: the documents of the batch and whether the call
succeeded. -/
structure BulkCall where
  docs : List RequestData
  ok : Bool
  deriving DecidableEq, Repr

/-- The document built at lines 203-208 for paragraph `val` at index `ind`. -/
def mkDoc (title author : GoString) (ind : Nat) (val : GoString) : RequestData :=
  { Location := (ind : Int), Title := title, Author := author, Text := val }

/-- The batch threshold test of line 212. -/
def flushAt (ind : Nat) : Bool := decide (ind > 0) && decide (ind % 500 = 0)

/-- The call `bulk.Do(ctx)` of the client on the batch `batch`, `hist` being the
batches the store has received so far: with no action in the batch the client
returns the error `No bulk actions to commit` without any request to the store;
otherwise the request is sent and the store answers. -/
def bulkDo (store : Store) (hist : List (List RequestData)) (batch : List RequestData) :
    Bool :=
  if batch.isEmpty then false else store hist batch

/-- The `for ind, val := range parseBook.paragraphs` loop (lines 202-225) followed
by the final `bulk.Do` (lines 227-231). `ind` is the index of the next
paragraph, `bulk` the batch accumulated so far, `calls` the `bulk.Do` calls made
so far (all successful, since a failing call returns). The final `bulk.Do` is
called whatever the batch holds; on an empty batch it fails in the client and
nothing is sent. The result is the full list of `bulk.Do` calls made by the
function. -/
def insertLoop (store : Store) (title author : GoString) :
    List GoString → Nat → List RequestData → List BulkCall → List BulkCall
  | [], _, bulk, calls =>
      calls ++ [⟨bulk, bulkDo store (calls.map BulkCall.docs) bulk⟩]
  | val :: rest, ind, bulk, calls =>
      let bulk1 := bulk ++ [mkDoc title author ind val]
      if flushAt ind then
        if bulkDo store (calls.map BulkCall.docs) bulk1 then
          insertLoop store title author rest (ind + 1) [] (calls ++ [⟨bulk1, true⟩])
        else
          calls ++ [⟨bulk1, false⟩]
      else
        insertLoop store title author rest (ind + 1) bulk1 calls

/-- The function `insertBookData`: the list of `bulk.Do` calls it makes, in call
order, each with its batch and its outcome. -/
def insertBookData (store : Store) (parseBook : ParseBook) : List BulkCall :=
  insertLoop store parseBook.title parseBook.author parseBook.paragraphs 0 [] []

/-- The bulk writes among the `bulk.Do` calls: the calls with a batch that is
not empty, which are the requests that reach the store. -/
def bulkWrites (calls : List BulkCall) : List BulkCall :=
  calls.filter (fun c => !c.docs.isEmpty)

/-- All documents sent, concatenated over the calls in call order. -/
def sentDocs (calls : List BulkCall) : List RequestData :=
  (calls.map BulkCall.docs).flatten

/-- The documents committed to the store: those of the successful calls. -/
def committedDocs (calls : List BulkCall) : List RequestData :=
  ((calls.filter BulkCall.ok).map BulkCall.docs).flatten

/-- The documents of paragraphs `ps`, the first of them having index `ind`. -/
def docsFrom (title author : GoString) : Nat → List GoString → List RequestData
  | _, [] => []
  | ind, val :: rest => mkDoc title author ind val :: docsFrom title author (ind + 1) rest

/-- The sizes of the batches of the `bulk.Do` calls made from paragraph index
`ind` on, when every call succeeds: `b` is the size of the current batch and
`n` the number of paragraphs still to come. -/
def sizesFrom : Nat → Nat → Nat → List Nat
  | _, b, 0 => [b]
  | ind, b, n + 1 =>
      if flushAt ind then (b + 1) :: sizesFrom (ind + 1) 0 n
      else sizesFrom (ind + 1) (b + 1) n

/-- A book of `n` paragraphs, all with the text `p`. -/
def uniformBook (n : Nat) : ParseBook :=
  { title := lit "T", author := lit "A", paragraphs := List.replicate n (lit "p") }

/-- The store that accepts every bulk write. -/
def acceptAll : Store := fun _ _ => true

/-- The store that rejects every bulk write. -/
def rejectAll : Store := fun _ _ => false

/-- The store that accepts the first bulk write it receives and rejects every
later one. -/
def firstOnly : Store := fun hist _ => hist.isEmpty

/-! ## Standard-library functions used by `parseBookFile` -/

/-- The function `strings.HasPrefix`. -/
def hasPrefixStr (s pre : GoString) : Bool := pre.isPrefixOf s

/-- First index of `sub` in `s` as a natural number, if `sub` occurs in `s`. -/
def indexNat : GoString → GoString → Option Nat
  | [], sub => if sub.isPrefixOf [] then some 0 else none
  | c :: cs, sub =>
      if sub.isPrefixOf (c :: cs) then some 0
      else (indexNat cs sub).map (· + 1)

/-- The function `strings.Index`: the index of the first instance of `sub` in
`s`, or `-1` if `sub` is not present in `s`. -/
def Index (s sub : GoString) : Int :=
  match indexNat s sub with
  | some i => (i : Int)
  | none => -1

/-- Upper-casing of one ASCII byte. -/
def upperByte (c : Nat) : Nat := if 97 ≤ c ∧ c ≤ 122 then c - 32 else c

/-- The function `strings.ToUpper`. A string of ASCII bytes only is mapped byte
by byte (`a`..`z` to `A`..`Z`); any other string goes through the Unicode case
mapping, whose tables are outside this development and are taken as the
parameter `uni`. -/
def ToUpper (uni : GoString → GoString) (s : GoString) : GoString :=
  if s.all (fun c => decide (c < 128)) then s.map upperByte else uni s

/-- A slice expression `s[lo:hi]`: it panics (`none`) unless
`0 ≤ lo ≤ hi ≤ len(s)`. -/
def slice (s : GoString) (lo hi : Int) : Option GoString :=
  if 0 ≤ lo ∧ lo ≤ hi ∧ hi ≤ (s.length : Int) then
    some ((s.drop lo.toNat).take (hi.toNat - lo.toNat))
  else none

/-! ### `bufio.Scanner` with the default `ScanLines` split function -/

/-- The constant `bufio.MaxScanTokenSize`. -/
def maxScanTokenSize : Nat := 65536

/-- The lines of the input as `ScanLines` delimits them, before the trailing
carriage return is dropped: the input is cut at every newline byte, and a final
piece without newline is a line only if it is not empty. `cur` is the current
line read so far, reversed. -/
def rawLinesAux : GoString → GoString → List GoString
  | [], cur => if cur = [] then [] else [cur.reverse]
  | c :: cs, cur =>
      if c = 10 then cur.reverse :: rawLinesAux cs [] else rawLinesAux cs (c :: cur)

/-- The lines of a file as `ScanLines` delimits them. -/
def rawLines (data : GoString) : List GoString := rawLinesAux data []

/-- The function `dropCR` of `bufio`: drops one trailing carriage return. -/
def dropCR (l : GoString) : GoString :=
  if l.getLast? = some 13 then l.dropLast else l

/-! ### `regexp`: the pattern `\n\s+\n` -/

/-- The Perl class `\s` of Go regular expressions, `[\t\n\f\r ]`. -/
def isSpace (c : Nat) : Bool :=
  decide (c = 9) || decide (c = 10) || decide (c = 12) || decide (c = 13) || decide (c = 32)

/-- Index of the last newline byte of `l`, if there is one. -/
def lastNewline : GoString → Option Nat
  | [] => none
  | c :: cs =>
      match lastNewline cs with
      | some i => some (i + 1)
      | none => if c = 10 then some 0 else none

/-- The match of `\n\s+\n` that starts at the first byte of `s`, if there is
one: its length. Go matches leftmost-first and `\s+` is greedy, so after the
newline and one whitespace byte the match extends to the last newline of the
whitespace run that follows. -/
def matchLen : GoString → Option Nat
  | c :: w :: rest =>
      if c = 10 ∧ isSpace w = true then
        (lastNewline (rest.takeWhile isSpace)).map (· + 3)
      else none
  | _ => none

/-- The pieces of `re.Split(s, -1)` for the pattern `\n\s+\n`, each paired with
the text of the match that precedes it (nothing precedes the first piece): the
input is scanned from the left, the leftmost match from the current position
ends the current piece, and scanning resumes after the match. `skip` is the
number of bytes of the current match still to pass over, `cur` the current
piece and `sep` the match before it, both reversed. -/
def splitAux : GoString → Nat → GoString → GoString → List (GoString × GoString)
  | [], _, cur, sep => [(sep.reverse, cur.reverse)]
  | c :: cs, skip + 1, cur, sep => splitAux cs skip cur (c :: sep)
  | c :: cs, 0, cur, sep =>
      match matchLen (c :: cs) with
      | some n => (sep.reverse, cur.reverse) :: splitAux cs (n - 1) [] [c]
      | none => splitAux cs 0 (c :: cur) sep

/-- The separators and pieces of `s`: `splitAux` from the start of `s`. -/
def splitParts (s : GoString) : List (GoString × GoString) := splitAux s 0 [] []

/-- The call `regexp.MustCompile("\n\s+\n").Split(s, -1)` of lines 185-186: the
substrings of `s` between the successive non-overlapping matches. An empty `s`
gives one empty piece, and a match at the very end is followed by an empty
piece. -/
def Split (s : GoString) : List GoString := (splitParts s).map Prod.snd

/-! ## `parseBookFile` (lines 126-194) -/

/-- How `parseBookFile` can end without returning a book, the file being
readable: `log.Fatal` on the scanner error of line 151 (a line longer than the
scanner accepts), or the panic of the slice expression of line 183. -/
inductive Failure where
  | scanTooLong
  | sliceOutOfRange
  deriving DecidableEq, Repr

/-- The scanning loop of lines 136-145 over the lines still to be read, `title`
and `author` being the variables of lines 133-134. A line of
`maxScanTokenSize` bytes or more makes `scanner.Scan` stop with an error, which
line 151 turns into `log.Fatal` (`none`). -/
def scanHeader : List GoString → GoString → GoString → Option (GoString × GoString)
  | [], title, author => some (title, author)
  | raw :: rest, title, author =>
      if maxScanTokenSize ≤ raw.length then none
      else
        let txt := dropCR raw
        let title1 :=
          if txt.length > 6 ∧ hasPrefixStr txt (lit "Title:") = true then txt.drop 7 else title
        if txt.length > 7 ∧ hasPrefixStr txt (lit "Author:") = true then
          some (title1, txt.drop 8)
        else scanHeader rest title1 author

/-- The first start banner with the title embedded, before upper-casing. -/
def startBanner1 (title : GoString) : GoString :=
  lit "*** START OF THIS PROJECT GUTENBERG EBOOK " ++ title ++ lit " ***"

/-- The second start banner. -/
def startBanner2 (title : GoString) : GoString :=
  lit "*** START OF THE PROJECT GUTENBERG EBOOK " ++ title ++ lit " ***"

/-- The third start banner. -/
def startBanner3 (title : GoString) : GoString :=
  lit "***START OF THE PROJECT GUTENBERG EBOOK " ++ title ++ lit "***"

/-- The first end banner. -/
def endBanner1 (title : GoString) : GoString :=
  lit "*** END OF THIS PROJECT GUTENBERG EBOOK " ++ title ++ lit " ***"

/-- The second end banner. -/
def endBanner2 (title : GoString) : GoString :=
  lit "*** END OF THE PROJECT GUTENBERG EBOOK " ++ title ++ lit " ***"

/-- The third end banner. -/
def endBanner3 (title : GoString) : GoString :=
  lit "***END OF THE PROJECT GUTENBERG EBOOK " ++ title ++ lit "***"

/-- The value of `startInd` after lines 161-170. -/
def startInd (uni : GoString → GoString) (title stringData : GoString) : Int :=
  let s1 : Int := ((startBanner1 title).length : Int)
    + Index stringData (ToUpper uni (startBanner1 title))
  if s1 = -1 then
    let s2 : Int := ((startBanner1 title).length : Int)
      + Index stringData (ToUpper uni (startBanner2 title))
    if s2 = -1 then
      ((startBanner1 title).length : Int)
        + Index stringData (ToUpper uni (startBanner3 title))
    else s2
  else s1

/-- The value of `endInd` after lines 172-181. -/
def endInd (uni : GoString → GoString) (title stringData : GoString) : Int :=
  let e1 := Index stringData (ToUpper uni (endBanner1 title))
  if e1 = -1 then
    let e2 := Index stringData (ToUpper uni (endBanner2 title))
    if e2 = -1 then Index stringData (ToUpper uni (endBanner3 title))
    else e2
  else e1

/-- The default of lines 147-149. -/
def authorOrDefault (author : GoString) : GoString :=
  if author = [] then lit "Unknown Author" else author

deriving instance DecidableEq for Except

/-- The function `parseBookFile` on a readable file with content `stringData`. -/
def parseBookFile (uni : GoString → GoString) (stringData : GoString) :
    Except Failure ParseBook :=
  match scanHeader (rawLines stringData) [] [] with
  | none => .error .scanTooLong
  | some (title, author0) =>
      match slice stringData (startInd uni title stringData) (endInd uni title stringData) with
      | none => .error .sliceOutOfRange
      | some slicedString =>
          .ok { title := title, author := authorOrDefault author0,
                paragraphs := Split slicedString }

/-! ## Notions used to state the properties -/

/-- The string `sub` occurs in `s` at byte offset `i`. -/
def OccursAt (s sub : GoString) (i : Nat) : Prop :=
  ∃ pre post, s = pre ++ sub ++ post ∧ pre.length = i

/-- The string `sub` occurs somewhere in `s`. -/
def Occurs (s sub : GoString) : Prop := ∃ i, OccursAt s sub i

/-- The first occurrence of `sub` in `s` is at byte offset `i`. -/
def FirstOccAt (s sub : GoString) (i : Nat) : Prop :=
  OccursAt s sub i ∧ ∀ j, OccursAt s sub j → i ≤ j

/-- A string matched as a whole by the pattern: a newline, one or more
whitespace bytes, a newline. -/
def IsSeparator (sp : GoString) : Prop :=
  ∃ w, w ≠ [] ∧ (∀ c ∈ w, isSpace c = true) ∧ sp = 10 :: (w ++ [10])

/-- The text `p0 sep0 p1 sep1 ... pk` made of pieces and the separators between
them. -/
def joinWith : List GoString → List GoString → GoString
  | [], _ => []
  | [p], _ => p
  | p :: ps, [] => p ++ joinWith ps []
  | p :: ps, sp :: sps => p ++ sp ++ joinWith ps sps

/-- Some line of `data` begins with `pre`: `pre` stands at the very beginning of
`data` or right after a newline byte. -/
def LineStartsWith (data pre : GoString) : Prop :=
  pre <+: data ∨ Occurs data (10 :: pre)

/-- The three end banners that lines 172-181 search for, in the order in which
they are tried. -/
def endBanners (uni : GoString → GoString) (title : GoString) : List GoString :=
  [ToUpper uni (endBanner1 title), ToUpper uni (endBanner2 title),
   ToUpper uni (endBanner3 title)]

/-- A file whose start and end banners are of the second variant. -/
def secondVariantFile : GoString :=
  lit ("Title: A\nAuthor: B\n*** START OF THE PROJECT GUTENBERG EBOOK A ***"
    ++ "body*** END OF THE PROJECT GUTENBERG EBOOK A ***")

/-- A file whose end banner is of the third variant. -/
def thirdEndFile : GoString :=
  lit ("Title: A\nAuthor: B\n*** START OF THIS PROJECT GUTENBERG EBOOK A ***"
    ++ "body***END OF THE PROJECT GUTENBERG EBOOK A***")

/-- A file whose banners embed the title as the header writes it. -/
def mixedCaseFile : GoString :=
  lit ("Title: Moby Dick\nAuthor: Herman Melville\n"
    ++ "*** START OF THIS PROJECT GUTENBERG EBOOK Moby Dick ***"
    ++ "Para one."
    ++ "*** END OF THIS PROJECT GUTENBERG EBOOK Moby Dick ***")

/-- The same file with the banners in upper case. -/
def upperCaseFile : GoString :=
  lit ("Title: Moby Dick\nAuthor: Herman Melville\n"
    ++ "*** START OF THIS PROJECT GUTENBERG EBOOK MOBY DICK ***"
    ++ "Para one."
    ++ "*** END OF THIS PROJECT GUTENBERG EBOOK MOBY DICK ***")

/-- A file without header lines, the banners embedding the empty title. -/
def noHeaderFile : GoString :=
  lit ("*** START OF THIS PROJECT GUTENBERG EBOOK  ***"
    ++ "Some text."
    ++ "*** END OF THIS PROJECT GUTENBERG EBOOK  ***")

/-- A paragraph text that the split leaves whole and does not merge with a
neighbouring separator: it is not empty, its first and its last byte are not
whitespace, and it contains no match of the pattern. -/
def cleanParagraph (p : GoString) : Bool :=
  (match p.head? with
    | some c => !isSpace c
    | none => false)
  && (match p.getLast? with
    | some c => !isSpace c
    | none => false)
  && p.tails.all (fun t => (matchLen t).isNone)

/-- The two header lines `Title: T` and `Author: A`, each ended by a newline. -/
def bookHeader (T A : GoString) : GoString :=
  (lit "Title: " ++ T ++ [10]) ++ (lit "Author: " ++ A ++ [10])

/-- A file made of the two header lines, the first start banner with the title
in upper case, the body, and the first end banner with the title in upper
case. -/
def bookFile (T A body : GoString) : GoString :=
  bookHeader T A
    ++ ((startBanner1 T).map upperByte ++ body ++ (endBanner1 T).map upperByte)

/-- The scenario file: `Moby Dick` by `Herman Melville`, two paragraphs with one
empty line between them. -/
def scenarioFile : GoString :=
  bookFile (lit "Moby Dick") (lit "Herman Melville") (lit "Para one.\n\nPara two.")

/-- The scenario file with every banner on a line of its own. -/
def scenarioFileLines : GoString :=
  lit ("Title: Moby Dick\nAuthor: Herman Melville\n\n"
    ++ "*** START OF THIS PROJECT GUTENBERG EBOOK MOBY DICK ***\n"
    ++ "Para one.\n\nPara two.\n"
    ++ "*** END OF THIS PROJECT GUTENBERG EBOOK MOBY DICK ***\n")

/-- Every byte of the string is an ASCII byte. -/
def isASCII (s : GoString) : Bool := s.all (fun c => decide (c < 128))

/-! ## Further files and notions -/

/-- A file whose body is empty: the end banner follows the start banner at
once. -/
def emptyBodyFile : GoString :=
  lit ("Title: A\nAuthor: B\n*** START OF THIS PROJECT GUTENBERG EBOOK A ***"
    ++ "*** END OF THIS PROJECT GUTENBERG EBOOK A ***")

/-- A readable file with header lines and text but without any banner. -/
def noBannerFile : GoString :=
  lit "Title: A\nAuthor: B\nSome text.\n"

/-- A readable file with the start banner but without any end banner. -/
def noEndBannerFile : GoString :=
  lit ("Title: A\nAuthor: B\n*** START OF THIS PROJECT GUTENBERG EBOOK A ***"
    ++ "Some text.\n")

/-- A readable file whose only banner is the end banner, at its beginning. -/
def endBannerFirstFile : GoString :=
  lit "*** END OF THIS PROJECT GUTENBERG EBOOK  ***Some text.\n"

/-- The guard of line 138: the line is longer than 6 bytes and begins with
`Title:`. -/
def isTitleLine (txt : GoString) : Bool :=
  decide (txt.length > 6) && hasPrefixStr txt (lit "Title:")

/-- The guard of line 141: the line is longer than 7 bytes and begins with
`Author:`. -/
def isAuthorLine (txt : GoString) : Bool :=
  decide (txt.length > 7) && hasPrefixStr txt (lit "Author:")

/-- The value of the variable `title` after the loop body has run over the
given lines (as the scanner returns them), starting from the value `title`. -/
def titleAfter : GoString → List GoString → GoString
  | title, [] => title
  | title, txt :: rest => titleAfter (if isTitleLine txt then txt.drop 7 else title) rest

/-- A slice expression `s[lo:]`: it panics (`none`) unless `lo ≤ len(s)`. -/
def sliceFrom (s : GoString) (lo : Nat) : Option GoString :=
  if lo ≤ s.length then some (s.drop lo) else none

/-- The body of the scanning loop (lines 137-144) on one line `txt`, with the
slice expressions `txt[7:]` and `txt[8:]` checked for their bounds: the new
values of `title` and `author` and whether the loop ends (`break`), or `none`
when a slice expression panics. -/
def headerStep (txt title author : GoString) : Option (GoString × GoString × Bool) :=
  match (if txt.length > 6 ∧ hasPrefixStr txt (lit "Title:") = true
          then sliceFrom txt 7 else some title) with
  | none => none
  | some title1 =>
      if txt.length > 7 ∧ hasPrefixStr txt (lit "Author:") = true then
        match sliceFrom txt 8 with
        | none => none
        | some author1 => some (title1, author1, true)
      else some (title1, author, false)

/-- A file with two `Title:` lines before the `Author:` line and further header
lines after it. -/
def twoTitlesFile : GoString :=
  lit ("Title: First\nNote\nTitle: Second\nAuthor: B\nTitle: Third\nAuthor: C\n"
    ++ "*** START OF THIS PROJECT GUTENBERG EBOOK SECOND ***"
    ++ "Some text."
    ++ "*** END OF THIS PROJECT GUTENBERG EBOOK SECOND ***")

/-! ## The index and its reset (`resetIndices`, lines 57-79) -/

/-- The constant `INDEX`. -/
def INDEX : GoString := lit "library"

/-- The constant `MAPPINGS`, the body sent with the creation of the index. -/
def MAPPINGS : GoString :=
  lit ("\n"
    ++ "\x7b\n"
    ++ "   \"mappings\": \x7b\n"
    ++ "\t\t\"book\": \x7b\n"
    ++ "\t\t\t\"properties\": \x7b\n"
    ++ "\t\t\t\t \"title\": \x7b\n"
    ++ "\t\t\t\t\t   \"type\": \"keyword\"\n"
    ++ "\t\t\t\t \x7d,\n"
    ++ "\t\t\t\t \"author\": \x7b\n"
    ++ "\t\t\t\t\t   \"type\": \"keyword\"\n"
    ++ "\t\t\t\t \x7d,\n"
    ++ "\t\t\t\t \"location\": \x7b\n"
    ++ "\t\t\t\t\t   \"type\": \"integer\"\n"
    ++ "\t\t\t\t\x7d,\n"
    ++ "\t\t\t\t\"text\": \x7b\n"
    ++ "\t\t\t\t\t\t\"type\": \"text\"\n"
    ++ "\t\t\t\t\x7d\n"
    ++ "\t\t\t\x7d\n"
    ++ "\t\t\x7d\n"
    ++ "   \x7d\n"
    ++ "\x7d\n")

/-- One index of the store: the body it was created with and its documents. -/
structure IndexState where
  body : GoString
  docs : List RequestData

/-- The indices of the store, by name. -/
abbrev Cluster := GoString → Option IndexState

/-- Which administrative operations of the store end in an error for a reason
outside the state of the indices (the store cannot be reached). -/
structure AdminFaults where
  existsFails : Bool
  deleteFails : Bool
  createFails : Bool

/-- The administrative operation whose error ends the run (`log.Fatalf`). -/
inductive AdminError where
  | indexExists
  | deleteIndex
  | createIndex
  deriving DecidableEq, Repr

/-- The store operation `IndexExists(name)`. -/
def esIndexExists (f : AdminFaults) (c : Cluster) (name : GoString) :
    Except AdminError Bool :=
  if f.existsFails then .error .indexExists else .ok (c name).isSome

/-- The store operation `DeleteIndex(name)`: an error when the index does not
exist, otherwise the index and its documents are gone. -/
def esDeleteIndex (f : AdminFaults) (c : Cluster) (name : GoString) :
    Except AdminError Cluster :=
  if f.deleteFails = true ∨ (c name).isSome = false then .error .deleteIndex
  else .ok (fun n => if n = name then none else c n)

/-- The store operation `CreateIndex(name).Body(body)`: an error when the index
exists already, otherwise the index exists with that body and no document. -/
def esCreateIndex (f : AdminFaults) (c : Cluster) (name body : GoString) :
    Except AdminError Cluster :=
  if f.createFails = true ∨ (c name).isSome = true then .error .createIndex
  else .ok (fun n => if n = name then some ⟨body, []⟩ else c n)

/-- The function `resetIndices`: the state of the store after it, or the
operation at which `log.Fatalf` ended the run. -/
def resetIndices (f : AdminFaults) (c : Cluster) : Except AdminError Cluster :=
  match esIndexExists f c INDEX with
  | .error e => .error e
  | .ok exist =>
      match (if exist then esDeleteIndex f c INDEX else .ok c) with
      | .error e => .error e
      | .ok c1 => esCreateIndex f c1 INDEX MAPPINGS

/-- A store in which the index `library` exists with another body and one
document. -/
def staleCluster : Cluster := fun n =>
  if n = lit "library" then some ⟨lit "old", [mkDoc (lit "T") (lit "A") 0 (lit "p")]⟩
  else none

/-- No administrative operation fails for an outside reason. -/
def noFaults : AdminFaults := ⟨false, false, false⟩

/-! ## `readAndInsertBooks` (lines 235-251) -/

/-- The function `strings.HasSuffix`. -/
def hasSuffixStr (s suf : GoString) : Bool := suf.isSuffixOf s

/-- One entry of the listing of the corpus directory: its name and the content
of the file, `none` when the file cannot be opened or read. -/
structure DirEntry where
  name : GoString
  content : Option GoString

/-- How a run of `readAndInsertBooks` ends: after the last entry, or at the
operation that ended the process (`log.Fatal`, `log.Fatalf`, or the panic of
the slice expression in `parseBookFile`). -/
inductive RunEnd where
  | completed
  | resetFailed (e : AdminError)
  | readDirFailed
  | openFailed (name : GoString)
  | parseFailed (name : GoString) (f : Failure)
  deriving DecidableEq, Repr

/-- A file that was parsed and handed to `insertBookData`: its name, the book,
and the bulk calls made for it. -/
structure Loaded where
  name : GoString
  book : ParseBook
  calls : List BulkCall
  deriving DecidableEq, Repr

/-- A run: the files parsed and loaded, in the order of processing, and how the
run ended. -/
structure Run where
  loaded : List Loaded
  ending : RunEnd
  deriving DecidableEq, Repr

/-- The batches that the store has received for the files loaded so far. -/
def histOf (loaded : List Loaded) : List (List RequestData) :=
  (loaded.map (fun x => (bulkWrites x.calls).map BulkCall.docs)).flatten

/-- The loop of lines 244-250 over the entries still to be processed. `hist`
holds the batches of all bulk writes made so far in the run (the store has
seen them), `acc` the files loaded so far. -/
def loadFiles (uni : GoString → GoString) (store : Store) :
    List DirEntry → List (List RequestData) → List Loaded → Run
  | [], _, acc => ⟨acc, .completed⟩
  | e :: rest, hist, acc =>
      if hasSuffixStr e.name (lit ".txt") then
        match e.content with
        | none => ⟨acc, .openFailed e.name⟩
        | some data =>
            match parseBookFile uni data with
            | .error f => ⟨acc, .parseFailed e.name f⟩
            | .ok parseBook =>
                let calls := insertBookData (fun h b => store (hist ++ h) b) parseBook
                loadFiles uni store rest (hist ++ (bulkWrites calls).map BulkCall.docs)
                  (acc ++ [⟨e.name, parseBook, calls⟩])
      else loadFiles uni store rest hist acc

/-- The function `readAndInsertBooks`. The result of `isHealthy` is not looked
at; `listing` is the result of `ioutil.ReadDir`, `none` when it fails. -/
def readAndInsertBooks (uni : GoString → GoString) (f : AdminFaults) (c : Cluster)
    (store : Store) (listing : Option (List DirEntry)) : Run :=
  match resetIndices f c with
  | .error e => ⟨[], .resetFailed e⟩
  | .ok _ =>
      match listing with
      | none => ⟨[], .readDirFailed⟩
      | some entries => loadFiles uni store entries [] []

/-- The entries of a listing whose names end in `.txt` and whose files parse,
each with its book, in listing order. -/
def parsedBooks (uni : GoString → GoString) : List DirEntry → List (GoString × ParseBook)
  | [] => []
  | e :: rest =>
      if hasSuffixStr e.name (lit ".txt") then
        match e.content with
        | none => parsedBooks uni rest
        | some data =>
            match parseBookFile uni data with
            | .error _ => parsedBooks uni rest
            | .ok book => (e.name, book) :: parsedBooks uni rest
      else parsedBooks uni rest

/-- A listing whose first file cannot be opened. -/
def unreadableFirst : List DirEntry :=
  [⟨lit "a.txt", none⟩, ⟨lit "b.txt", some upperCaseFile⟩]

/-- A listing of two files that parse, with an entry between them that is no
text file. -/
def twoBooks : List DirEntry :=
  [⟨lit "a.txt", some upperCaseFile⟩, ⟨lit "notes.md", none⟩,
   ⟨lit "b.txt", some emptyBodyFile⟩]

/-! ## Properties of `insertBookData` -/

theorem sentDocs_append (xs ys : List BulkCall) :
    sentDocs (xs ++ ys) = sentDocs xs ++ sentDocs ys := by
  simp [sentDocs]

theorem length_docsFrom (t a : GoString) (ps : List GoString) :
    ∀ k, (docsFrom t a k ps).length = ps.length := by
  induction ps with
  | nil => intro k; rfl
  | cons p ps ih => intro k; simp [docsFrom, ih]

theorem getElem?_docsFrom (t a : GoString) (ps : List GoString) :
    ∀ k i, (docsFrom t a k ps)[i]? = (ps[i]?).map (mkDoc t a (k + i)) := by
  induction ps with
  | nil => intro k i; simp [docsFrom]
  | cons p ps ih =>
    intro k i
    cases i with
    | zero => simp [docsFrom]
    | succ i =>
      have e : k + 1 + i = k + (i + 1) := by omega
      simp only [docsFrom, List.getElem?_cons_succ, ih, e]

theorem map_location_docsFrom (t a : GoString) (ps : List GoString) :
    ∀ k, (docsFrom t a k ps).map RequestData.Location
      = (List.range' k ps.length).map (fun i => (i : Int)) := by
  induction ps with
  | nil => intro k; rfl
  | cons p ps ih => intro k; simp [docsFrom, ih, List.range', mkDoc]

/-- A batch to which a document was just added is sent to the store. -/
theorem bulkDo_concat (store : Store) (hist : List (List RequestData))
    (bulk : List RequestData) (d : RequestData) :
    bulkDo store hist (bulk ++ [d]) = store hist (bulk ++ [d]) := by
  cases bulk <;> simp [bulkDo]

/-- With a store that accepts every call, the documents sent by the loop are
those already sent, the current batch, and the documents of the paragraphs
still to come. -/
theorem sentDocs_insertLoop (store : Store) (t a : GoString)
    (h : ∀ hist b, store hist b = true) (ps : List GoString) :
    ∀ ind bulk calls, sentDocs (insertLoop store t a ps ind bulk calls)
      = sentDocs calls ++ (bulk ++ docsFrom t a ind ps) := by
  induction ps with
  | nil => intro ind bulk calls; simp [insertLoop, sentDocs, docsFrom]
  | cons p ps ih =>
    intro ind bulk calls
    simp only [insertLoop, bulkDo_concat, h, if_true]
    split
    · rw [ih]; simp [sentDocs, docsFrom]
    · rw [ih]; simp [docsFrom]

/-- C1. With a store that accepts every bulk write, the documents sent by
`insertBookData`, concatenated over its bulk calls in call order, are exactly
one document per paragraph: as many as there are paragraphs, the `i`-th being
`location = i, title = book.title, author = book.author, text = p_i`; so the
locations are `0, 1, ..., N-1` in increasing order of write. -/
theorem C1_documents_sent (store : Store) (book : ParseBook)
    (h : ∀ hist b, store hist b = true) :
    (sentDocs (insertBookData store book)).length = book.paragraphs.length
    ∧ (∀ i (hi : i < book.paragraphs.length),
        (sentDocs (insertBookData store book))[i]?
          = some { Location := (i : Int), Title := book.title,
                   Author := book.author, Text := book.paragraphs[i] })
    ∧ (sentDocs (insertBookData store book)).map RequestData.Location
        = (List.range book.paragraphs.length).map (fun i => (i : Int)) := by
  have e : sentDocs (insertBookData store book)
      = docsFrom book.title book.author 0 book.paragraphs := by
    rw [insertBookData, sentDocs_insertLoop store _ _ h]
    simp [sentDocs]
  rw [e]
  refine ⟨length_docsFrom _ _ _ _, ?_, ?_⟩
  · intro i hi
    rw [getElem?_docsFrom, List.getElem?_eq_getElem hi]
    simp [mkDoc]
  · rw [map_location_docsFrom, List.range_eq_range']

/-- C1 at a book of three paragraphs and the store that accepts everything. -/
theorem C1_documents_sent_witness :
    (sentDocs (insertBookData (fun _ _ => true)
        ⟨lit "T", lit "A", [lit "p0", lit "p1", lit "p2"]⟩)).length = 3
    ∧ (∀ i (hi : i < 3),
        (sentDocs (insertBookData (fun _ _ => true)
            ⟨lit "T", lit "A", [lit "p0", lit "p1", lit "p2"]⟩))[i]?
          = some { Location := (i : Int), Title := lit "T", Author := lit "A",
                   Text := [lit "p0", lit "p1", lit "p2"][i] })
    ∧ (sentDocs (insertBookData (fun _ _ => true)
        ⟨lit "T", lit "A", [lit "p0", lit "p1", lit "p2"]⟩)).map RequestData.Location
        = (List.range 3).map (fun i => (i : Int)) :=
  C1_documents_sent (fun _ _ => true)
    ⟨lit "T", lit "A", [lit "p0", lit "p1", lit "p2"]⟩ (fun _ _ => rfl)

/-- The calls already made stay at the front of the result of the loop, and at
least one call follows them. -/
theorem insertLoop_extends (store : Store) (t a : GoString) (ps : List GoString) :
    ∀ ind bulk calls, ∃ c more,
      insertLoop store t a ps ind bulk calls = calls ++ c :: more := by
  induction ps with
  | nil => intro ind bulk calls; exact ⟨_, [], rfl⟩
  | cons p ps ih =>
    intro ind bulk calls
    simp only [insertLoop]
    split
    · split
      · obtain ⟨c, more, e⟩ := ih (ind + 1) []
          (calls ++ [⟨bulk ++ [mkDoc t a ind p], true⟩])
        exact ⟨⟨bulk ++ [mkDoc t a ind p], true⟩, c :: more, by rw [e]; simp⟩
      · exact ⟨_, [], rfl⟩
    · exact ih _ _ _

/-- While no index reaches the threshold test, paragraphs only accumulate in the
current batch. -/
theorem insertLoop_accumulate (store : Store) (t a : GoString) (p1 : List GoString) :
    ∀ (p2 : List GoString) ind bulk calls,
      (∀ i, ind ≤ i → i < ind + p1.length → flushAt i = false) →
      insertLoop store t a (p1 ++ p2) ind bulk calls
        = insertLoop store t a p2 (ind + p1.length) (bulk ++ docsFrom t a ind p1) calls := by
  induction p1 with
  | nil => intro p2 ind bulk calls _; simp [docsFrom]
  | cons p p1 ih =>
    intro p2 ind bulk calls h
    have h0 : flushAt ind = false := h ind (Nat.le_refl _) (by simp)
    have e := ih p2 (ind + 1) (bulk ++ [mkDoc t a ind p]) calls
      (fun i h1 h2 => h i (by omega) (by simp only [List.length_cons]; omega))
    have e1 : ind + (p :: p1).length = ind + 1 + p1.length := by
      simp only [List.length_cons]; omega
    rw [List.cons_append, insertLoop]
    simp only [h0, Bool.false_eq_true, if_false]
    rw [e, e1]
    simp [docsFrom]

/-- Whatever the store does, a book of more than 500 paragraphs has 501
documents in its first bulk call. -/
theorem first_call_size (store : Store) (book : ParseBook)
    (h : 500 < book.paragraphs.length) :
    (insertBookData store book).head?.map (fun c => c.docs.length) = some 501 := by
  obtain ⟨t, a, ps⟩ := book
  simp only at h
  have hsplit : ps = ps.take 500 ++ ps.drop 500 := (List.take_append_drop 500 ps).symm
  have hlen : (ps.take 500).length = 500 := by simp; omega
  obtain ⟨p, rest, hd⟩ : ∃ p rest, ps.drop 500 = p :: rest := by
    cases hdr : ps.drop 500 with
    | nil => simp at hdr; omega
    | cons p rest => exact ⟨p, rest, rfl⟩
  have hno : ∀ i, 0 ≤ i → i < 0 + (ps.take 500).length → flushAt i = false := by
    intro i _ hi
    rw [hlen] at hi
    simp only [flushAt, Bool.and_eq_false_imp, decide_eq_true_eq, decide_eq_false_iff_not]
    omega
  simp only [insertBookData]
  rw [hsplit, insertLoop_accumulate store t a _ _ 0 [] [] hno, hd, hlen]
  have hf : flushAt 500 = true := by decide
  simp only [insertLoop, hf, if_true, Nat.zero_add, List.nil_append, List.map_nil]
  split
  · obtain ⟨c, more, e⟩ := insertLoop_extends store t a rest (500 + 1) []
      [⟨docsFrom t a 0 (List.take 500 ps) ++ [mkDoc t a 500 p], true⟩]
    rw [e]
    simp [length_docsFrom, hlen]
  · simp [length_docsFrom, hlen]

/-- With a store that accepts every call, the batch sizes of the calls made by
the loop are those of `sizesFrom`. -/
theorem sizes_insertLoop (store : Store) (t a : GoString)
    (h : ∀ hist b, store hist b = true) (ps : List GoString) :
    ∀ ind bulk calls,
      (insertLoop store t a ps ind bulk calls).map (fun c => c.docs.length)
        = calls.map (fun c => c.docs.length) ++ sizesFrom ind bulk.length ps.length := by
  induction ps with
  | nil => intro ind bulk calls; simp [insertLoop, sizesFrom]
  | cons p ps ih =>
    intro ind bulk calls
    simp only [insertLoop, bulkDo_concat, h, if_true, List.length_cons, sizesFrom]
    split
    · rw [ih]; simp
    · rw [ih]; simp

/-- All calls but the last one of the loop have succeeded. -/
theorem insertLoop_dropLast_ok (store : Store) (t a : GoString) (ps : List GoString) :
    ∀ ind bulk calls, (∀ x ∈ calls, x.ok = true) →
      ∀ x ∈ (insertLoop store t a ps ind bulk calls).dropLast, x.ok = true := by
  induction ps with
  | nil =>
    intro ind bulk calls hc x hx
    simp only [insertLoop, List.dropLast_concat] at hx
    exact hc x hx
  | cons p ps ih =>
    intro ind bulk calls hc x hx
    simp only [insertLoop] at hx
    split at hx
    · split at hx
      · refine ih _ _ _ ?_ x hx
        intro y hy
        rcases List.mem_append.1 hy with hy | hy
        · exact hc y hy
        · simp only [List.mem_singleton] at hy; rw [hy]
      · simp only [List.dropLast_concat] at hx
        exact hc x hx
    · exact ih _ _ _ hc x hx

/-- C2 (the code at the failing input). For a book of 501 paragraphs the first
bulk call made by `insertBookData` carries 501 documents, whatever the store
does: the threshold test of line 212 first holds at index 500, after the 501st
document was added, so the bound of 500 documents per call is exceeded. -/
theorem C2_first_call_has_501 (store : Store) :
    (insertBookData store (uniformBook 501)).head?.map (fun c => c.docs.length)
      = some 501 :=
  first_call_size store (uniformBook 501) (by
    show 500 < (List.replicate 501 (lit "p")).length
    rw [List.length_replicate]
    decide)

set_option maxRecDepth 100000 in
/-- C3 (the code at the failing inputs). With the store that accepts every
write, `bulk.Do` is called twice for a book of 501 paragraphs, with batches of
501 and 0 documents, so its last call is empty (the claim says one document),
and twice for a book of 1000 paragraphs, with batches of 501 and 499 documents
(the claim says 500 for the last call). -/
theorem C3_tail_sizes :
    (insertBookData acceptAll (uniformBook 501)).map (fun c => c.docs.length) = [501, 0]
    ∧ (insertBookData acceptAll (uniformBook 1000)).map (fun c => c.docs.length)
        = [501, 499] := by
  constructor
  · rw [insertBookData, sizes_insertLoop acceptAll _ _ (fun _ _ => rfl)]
    simp only [uniformBook, List.length_replicate, List.map_nil, List.nil_append,
      List.length_nil]
    decide
  · rw [insertBookData, sizes_insertLoop acceptAll _ _ (fun _ _ => rfl)]
    simp only [uniformBook, List.length_replicate, List.map_nil, List.nil_append,
      List.length_nil]
    decide

/-- C9. Whatever the store does, if a bulk call made by `insertBookData` fails
then it is the last call made (nothing is retried and nothing follows it),
every call before it succeeded, and the documents committed to the store are
exactly those of the calls before it. -/
theorem C9_abort_on_failure (store : Store) (book : ParseBook)
    (pre post : List BulkCall) (c : BulkCall)
    (hcalls : insertBookData store book = pre ++ c :: post) (hfail : c.ok = false) :
    post = [] ∧ (∀ x ∈ pre, x.ok = true)
      ∧ committedDocs (insertBookData store book) = sentDocs pre := by
  have hok := insertLoop_dropLast_ok store book.title book.author book.paragraphs 0 [] []
    (by simp)
  rw [← insertBookData, hcalls] at hok
  have hpost : post = [] := by
    cases post with
    | nil => rfl
    | cons d post =>
      have hc : c ∈ (pre ++ c :: d :: post).dropLast := by
        rw [List.dropLast_append_of_ne_nil _ (by simp), List.dropLast_cons₂]
        simp
      have := hok c hc
      rw [hfail] at this
      exact absurd this (by simp)
  subst hpost
  have hpre : ∀ x ∈ pre, x.ok = true := by
    intro x hx
    apply hok x
    simpa using hx
  refine ⟨rfl, hpre, ?_⟩
  rw [hcalls, committedDocs, sentDocs, List.filter_append]
  have e1 : pre.filter BulkCall.ok = pre := List.filter_eq_self.2 hpre
  have e2 : [c].filter BulkCall.ok = [] := by simp [hfail]
  rw [e1, e2, List.append_nil]

/-- A book whose second bulk write the store rejects: the first call carries the
paragraphs of indices 0 to 500, the second those of indices 501 to 1000, and
after the failure of the second call nothing more is sent, whatever paragraphs
remain. -/
theorem insertBookData_second_call_fails (store : Store) (t a : GoString)
    (p1 p2 z : List GoString) (x y : GoString)
    (h1 : p1.length = 500) (h2 : p2.length = 499)
    (hs1 : store [] (docsFrom t a 0 p1 ++ [mkDoc t a 500 x]) = true)
    (hs2 : store [docsFrom t a 0 p1 ++ [mkDoc t a 500 x]]
        (docsFrom t a 501 p2 ++ [mkDoc t a 1000 y]) = false) :
    insertBookData store ⟨t, a, p1 ++ x :: (p2 ++ y :: z)⟩
      = [⟨docsFrom t a 0 p1 ++ [mkDoc t a 500 x], true⟩]
        ++ ⟨docsFrom t a 501 p2 ++ [mkDoc t a 1000 y], false⟩ :: [] := by
  have hno1 : ∀ i, 0 ≤ i → i < 0 + p1.length → flushAt i = false := by
    intro i _ hi
    rw [h1] at hi
    simp only [flushAt, Bool.and_eq_false_imp, decide_eq_true_eq, decide_eq_false_iff_not]
    omega
  have hno2 : ∀ i, 501 ≤ i → i < 501 + p2.length → flushAt i = false := by
    intro i hi1 hi2
    rw [h2] at hi2
    simp only [flushAt, Bool.and_eq_false_imp, decide_eq_true_eq, decide_eq_false_iff_not]
    omega
  have hf1 : flushAt 500 = true := by decide
  have hf2 : flushAt 1000 = true := by decide
  have e1 : (0 : Nat) + p1.length = 500 := by omega
  have e2 : 501 + p2.length = 1000 := by omega
  simp only [insertBookData]
  rw [insertLoop_accumulate store t a p1 _ 0 [] [] hno1, e1, insertLoop]
  simp only [hf1, if_true, List.nil_append, List.map_nil, bulkDo_concat, hs1]
  rw [insertLoop_accumulate store t a p2 _ 501 [] _ hno2, e2, insertLoop]
  simp only [hf2, if_true, List.nil_append, List.map_cons, List.map_nil, bulkDo_concat, hs2,
    Bool.false_eq_true, if_false, List.singleton_append]

/-- C9 on a book of 1200 paragraphs and the store that accepts only the first
bulk write: the first call (paragraphs 0 to 500) succeeds, the second call
(paragraphs 501 to 1000) fails, nothing follows it, so that the paragraphs 1001
to 1199 are never sent, and the documents committed are the 501 documents of
the first call. -/
theorem C9_abort_on_failure_witness :
    (insertBookData firstOnly (uniformBook 1200)
        = [⟨docsFrom (lit "T") (lit "A") 0 (List.replicate 500 (lit "p"))
              ++ [mkDoc (lit "T") (lit "A") 500 (lit "p")], true⟩]
          ++ ⟨docsFrom (lit "T") (lit "A") 501 (List.replicate 499 (lit "p"))
              ++ [mkDoc (lit "T") (lit "A") 1000 (lit "p")], false⟩ :: []
      ∧ (⟨docsFrom (lit "T") (lit "A") 501 (List.replicate 499 (lit "p"))
              ++ [mkDoc (lit "T") (lit "A") 1000 (lit "p")], false⟩ : BulkCall).ok = false)
    ∧ (([] : List BulkCall) = []
      ∧ (∀ x ∈ [(⟨docsFrom (lit "T") (lit "A") 0 (List.replicate 500 (lit "p"))
              ++ [mkDoc (lit "T") (lit "A") 500 (lit "p")], true⟩ : BulkCall)], x.ok = true)
      ∧ committedDocs (insertBookData firstOnly (uniformBook 1200))
          = sentDocs [⟨docsFrom (lit "T") (lit "A") 0 (List.replicate 500 (lit "p"))
              ++ [mkDoc (lit "T") (lit "A") 500 (lit "p")], true⟩])
    ∧ (committedDocs (insertBookData firstOnly (uniformBook 1200))).length = 501
    ∧ (uniformBook 1200).paragraphs.length = 1200 :=
  have hrep : List.replicate 1200 (lit "p")
      = List.replicate 500 (lit "p")
          ++ lit "p" :: (List.replicate 499 (lit "p")
          ++ lit "p" :: List.replicate 199 (lit "p")) := by
    have r1 : List.replicate 1200 (lit "p")
        = List.replicate 500 (lit "p") ++ List.replicate 700 (lit "p") :=
      List.replicate_add 500 700 (lit "p")
    have r2 : List.replicate 700 (lit "p") = lit "p" :: List.replicate 699 (lit "p") :=
      List.replicate_succ (lit "p") 699
    have r3 : List.replicate 699 (lit "p")
        = List.replicate 499 (lit "p") ++ List.replicate 200 (lit "p") :=
      List.replicate_add 499 200 (lit "p")
    have r4 : List.replicate 200 (lit "p") = lit "p" :: List.replicate 199 (lit "p") :=
      List.replicate_succ (lit "p") 199
    rw [r1, r2, r3, r4]
  have hcalls : insertBookData firstOnly (uniformBook 1200)
      = [⟨docsFrom (lit "T") (lit "A") 0 (List.replicate 500 (lit "p"))
            ++ [mkDoc (lit "T") (lit "A") 500 (lit "p")], true⟩]
        ++ ⟨docsFrom (lit "T") (lit "A") 501 (List.replicate 499 (lit "p"))
            ++ [mkDoc (lit "T") (lit "A") 1000 (lit "p")], false⟩ :: [] := by
    have hb : uniformBook 1200 = ⟨lit "T", lit "A", List.replicate 1200 (lit "p")⟩ := rfl
    rw [hb, hrep]
    exact insertBookData_second_call_fails firstOnly (lit "T") (lit "A") _ _ _ _ _
      (List.length_replicate _ _) (List.length_replicate _ _) rfl rfl
  have h := C9_abort_on_failure firstOnly (uniformBook 1200) _ _ _ hcalls rfl
  have hlen : (committedDocs (insertBookData firstOnly (uniformBook 1200))).length = 501 := by
    rw [h.2.2]
    show ((docsFrom (lit "T") (lit "A") 0 (List.replicate 500 (lit "p"))
      ++ [mkDoc (lit "T") (lit "A") 500 (lit "p")]) ++ []).length = 501
    rw [List.append_nil, List.length_append, length_docsFrom, List.length_replicate]
    rfl
  have hn : (uniformBook 1200).paragraphs.length = 1200 := by
    show (List.replicate 1200 (lit "p")).length = 1200
    exact List.length_replicate _ _
  ⟨⟨hcalls, rfl⟩, h, hlen, hn⟩

/-! ## Properties of the string functions -/

theorem occursAt_zero (s sub : GoString) : OccursAt s sub 0 ↔ sub <+: s := by
  constructor
  · rintro ⟨pre, post, e, hl⟩
    have : pre = [] := List.length_eq_zero.1 hl
    subst this
    exact ⟨post, by simpa using e.symm⟩
  · rintro ⟨post, e⟩
    exact ⟨[], post, by simpa using e.symm, rfl⟩

theorem occursAt_succ (c : Nat) (cs sub : GoString) (j : Nat) :
    OccursAt (c :: cs) sub (j + 1) ↔ OccursAt cs sub j := by
  constructor
  · rintro ⟨pre, post, e, hl⟩
    cases pre with
    | nil => simp at hl
    | cons d pre =>
      simp only [List.cons_append, List.cons.injEq] at e
      exact ⟨pre, post, e.2, by simpa using hl⟩
  · rintro ⟨pre, post, e, hl⟩
    exact ⟨c :: pre, post, by simp [e], by simp [hl]⟩

theorem occursAt_nil (sub : GoString) (j : Nat) : OccursAt [] sub j ↔ sub = [] ∧ j = 0 := by
  constructor
  · rintro ⟨pre, post, e, hl⟩
    have h := congrArg List.length e
    simp only [List.length_nil, List.length_append] at h
    have h1 : sub.length = 0 := by omega
    exact ⟨List.length_eq_zero.1 h1, by omega⟩
  · rintro ⟨rfl, rfl⟩
    exact ⟨[], [], rfl, rfl⟩

/-- The function `indexNat` finds the first occurrence, and finds one whenever
there is one. -/
theorem indexNat_spec (sub : GoString) (s : GoString) :
    (∀ i, indexNat s sub = some i ↔ FirstOccAt s sub i)
    ∧ (indexNat s sub = none ↔ ¬ Occurs s sub) := by
  induction s with
  | nil =>
    by_cases hs : sub = []
    · subst hs
      simp only [indexNat, List.isPrefixOf, if_true]
      refine ⟨fun i => ?_, ?_⟩
      · constructor
        · intro h
          have : i = 0 := by simpa using h.symm
          subst this
          exact ⟨(occursAt_nil _ _).2 ⟨rfl, rfl⟩, fun j _ => Nat.zero_le j⟩
        · rintro ⟨h, _⟩
          rw [((occursAt_nil _ _).1 h).2]
      · simp only [reduceCtorEq, false_iff, not_not]
        exact ⟨0, (occursAt_nil _ _).2 ⟨rfl, rfl⟩⟩
    · have hp : sub.isPrefixOf [] = false := by
        cases sub with
        | nil => exact absurd rfl hs
        | cons a sub => rfl
      simp only [indexNat, hp, Bool.false_eq_true, if_false]
      refine ⟨fun i => ?_, ?_⟩
      · simp only [reduceCtorEq, false_iff]
        rintro ⟨h, _⟩
        exact hs ((occursAt_nil _ _).1 h).1
      · simp only [true_iff]
        rintro ⟨j, h⟩
        exact hs ((occursAt_nil _ _).1 h).1
  | cons c cs ih =>
    by_cases hp : sub.isPrefixOf (c :: cs) = true
    · have h0 : OccursAt (c :: cs) sub 0 :=
        (occursAt_zero _ _).2 (List.isPrefixOf_iff_prefix.1 hp)
      simp only [indexNat, hp, if_true]
      refine ⟨fun i => ?_, ?_⟩
      · constructor
        · intro h
          have : i = 0 := by simpa using h.symm
          subst this
          exact ⟨h0, fun j _ => Nat.zero_le j⟩
        · rintro ⟨_, h⟩
          have := h 0 h0
          have : i = 0 := by omega
          rw [this]
      · simp only [reduceCtorEq, false_iff, not_not]
        exact ⟨0, h0⟩
    · have hn0 : ¬ OccursAt (c :: cs) sub 0 := fun h =>
        hp (List.isPrefixOf_iff_prefix.2 ((occursAt_zero _ _).1 h))
      simp only [indexNat, hp, Bool.false_eq_true, if_false]
      refine ⟨fun i => ?_, ?_⟩
      · cases i with
        | zero =>
          constructor
          · intro h
            simp at h
          · rintro ⟨h, _⟩
            exact absurd h hn0
        | succ i =>
          rw [show (Option.map (· + 1) (indexNat cs sub) = some (i + 1))
            ↔ indexNat cs sub = some i by
              cases indexNat cs sub <;> simp]
          rw [ih.1 i]
          constructor
          · rintro ⟨h1, h2⟩
            refine ⟨(occursAt_succ _ _ _ _).2 h1, fun j hj => ?_⟩
            cases j with
            | zero => exact absurd hj hn0
            | succ j => exact Nat.succ_le_succ (h2 j ((occursAt_succ _ _ _ _).1 hj))
          · rintro ⟨h1, h2⟩
            refine ⟨(occursAt_succ _ _ _ _).1 h1, fun j hj => ?_⟩
            exact Nat.le_of_succ_le_succ (h2 (j + 1) ((occursAt_succ _ _ _ _).2 hj))
      · rw [show (Option.map (· + 1) (indexNat cs sub) = none) ↔ indexNat cs sub = none by
          cases indexNat cs sub <;> simp]
        rw [ih.2]
        constructor
        · rintro h ⟨j, hj⟩
          cases j with
          | zero => exact hn0 hj
          | succ j => exact h ⟨j, (occursAt_succ _ _ _ _).1 hj⟩
        · rintro h ⟨j, hj⟩
          exact h ⟨j + 1, (occursAt_succ _ _ _ _).2 hj⟩

/-- `Index` returns the offset of the first occurrence. -/
theorem Index_eq_of_firstOccAt (s sub : GoString) (i : Nat) (h : FirstOccAt s sub i) :
    Index s sub = (i : Int) := by
  have := ((indexNat_spec sub s).1 i).2 h
  simp [Index, this]

/-- `Index` returns `-1` exactly when the string does not occur. -/
theorem Index_eq_neg_one_iff (s sub : GoString) : Index s sub = -1 ↔ ¬ Occurs s sub := by
  rw [← (indexNat_spec sub s).2]
  unfold Index
  cases indexNat s sub with
  | none => simp
  | some i => simp

/-- `Index` is never below `-1`. -/
theorem Index_ge (s sub : GoString) : -1 ≤ Index s sub := by
  unfold Index
  cases indexNat s sub with
  | none => simp
  | some i => simp; omega

/-- A non-negative `Index` is the offset of the first occurrence. -/
theorem firstOccAt_of_Index (s sub : GoString) (i : Nat) (h : Index s sub = (i : Int)) :
    FirstOccAt s sub i := by
  apply ((indexNat_spec sub s).1 i).1
  unfold Index at h
  cases hx : indexNat s sub with
  | none => rw [hx] at h; simp at h
  | some j => rw [hx] at h; simp at h; rw [h]

/-! ## Properties of the banner search -/

theorem length_startBanner1 (t : GoString) : (startBanner1 t).length = t.length + 46 := by
  have h1 : (lit "*** START OF THIS PROJECT GUTENBERG EBOOK ").length = 42 := by decide
  have h2 : (lit " ***").length = 4 := by decide
  simp only [startBanner1, List.length_append, h1, h2]
  omega

/-- The test `startInd == -1` of lines 163 and 166 never holds: the value
tested is an index, at least `-1`, plus the length of a banner, at least 46. So
`startInd` is always computed from the first banner alone. -/
theorem startInd_eq (uni : GoString → GoString) (title data : GoString) :
    startInd uni title data
      = ((startBanner1 title).length : Int)
        + Index data (ToUpper uni (startBanner1 title)) := by
  have h1 := Index_ge data (ToUpper uni (startBanner1 title))
  have h2 := length_startBanner1 title
  have h3 : ((startBanner1 title).length : Int)
      + Index data (ToUpper uni (startBanner1 title)) ≠ -1 := by omega
  simp only [startInd, h3, if_false]

/-- On ASCII bytes `ToUpper` is the byte-wise upper-casing. -/
theorem ToUpper_ascii (uni : GoString → GoString) (s : GoString) (h : isASCII s = true) :
    ToUpper uni s = s.map upperByte := by
  unfold isASCII at h
  simp only [ToUpper, h, if_true]

theorem isASCII_append (a b : GoString) :
    isASCII (a ++ b) = (isASCII a && isASCII b) := by
  simp [isASCII, List.all_append]

theorem isASCII_startBanner1 (t : GoString) (h : isASCII t = true) :
    isASCII (startBanner1 t) = true := by
  have h1 : isASCII (lit "*** START OF THIS PROJECT GUTENBERG EBOOK ") = true := by decide
  have h2 : isASCII (lit " ***") = true := by decide
  simp only [startBanner1, isASCII_append, h, h1, h2, Bool.and_self]

theorem isASCII_endBanner1 (t : GoString) (h : isASCII t = true) :
    isASCII (endBanner1 t) = true := by
  have h1 : isASCII (lit "*** END OF THIS PROJECT GUTENBERG EBOOK ") = true := by decide
  have h2 : isASCII (lit " ***") = true := by decide
  simp only [endBanner1, isASCII_append, h, h1, h2, Bool.and_self]

set_option maxRecDepth 100000 in
/-- C6 (what the code does, and the code at the failing input). For every file
content and title the start offset is the length of the first banner plus the
index of the first banner, so the second and third banners are never used: when
the first banner is absent the offset is that length minus one. On
`secondVariantFile` only the second banner occurs, at offset 19 with length 46,
so the body starts at 65; the code takes offset 46 and returns the text from
the middle of the banner on as the only paragraph. -/
theorem C6_start_fallback_dead :
    (∀ (uni : GoString → GoString) (title data : GoString),
      startInd uni title data
        = ((startBanner1 title).length : Int)
          + Index data (ToUpper uni (startBanner1 title)))
    ∧ Index secondVariantFile (ToUpper id (startBanner1 (lit "A"))) = -1
    ∧ Index secondVariantFile (ToUpper id (startBanner2 (lit "A"))) = 19
    ∧ (ToUpper id (startBanner2 (lit "A"))).length = 46
    ∧ startInd id (lit "A") secondVariantFile = 46
    ∧ parseBookFile id secondVariantFile
        = .ok ⟨lit "A", lit "B", [lit "TENBERG EBOOK A ***body"]⟩ := by
  refine ⟨startInd_eq, ?_, ?_, ?_, ?_, ?_⟩ <;> decide

/-- C7. The three end banners are tried in order, and the end offset is the
index of the first occurrence of the first of them that occurs in the content:
if the `k`-th banner has its first occurrence at offset `i` and no banner tried
before it occurs at all, then `endInd` is `i`, the offset at which that banner
begins. -/
theorem C7_end_offset (uni : GoString → GoString) (title data : GoString)
    (k i : Nat) (b : GoString)
    (hb : (endBanners uni title)[k]? = some b)
    (hprio : ∀ j b1, j < k → (endBanners uni title)[j]? = some b1 → ¬ Occurs data b1)
    (hocc : FirstOccAt data b i) :
    endInd uni title data = (i : Int) := by
  have hi := Index_eq_of_firstOccAt data b i hocc
  have hne : (i : Int) ≠ -1 := by omega
  match k, hb, hprio with
  | 0, hb, _ =>
    simp only [endBanners, List.getElem?_cons_zero, Option.some.injEq] at hb
    subst hb
    simp only [endInd, hi, hne, if_false]
  | 1, hb, hprio =>
    simp only [endBanners, List.getElem?_cons_succ, List.getElem?_cons_zero,
      Option.some.injEq] at hb
    subst hb
    have h1 := (Index_eq_neg_one_iff data _).2 (hprio 0 (ToUpper uni (endBanner1 title)) (by omega) rfl)
    simp only [endInd, h1, hi, hne, if_true, if_false]
  | 2, hb, hprio =>
    simp only [endBanners, List.getElem?_cons_succ, List.getElem?_cons_zero,
      Option.some.injEq] at hb
    subst hb
    have h1 := (Index_eq_neg_one_iff data _).2 (hprio 0 (ToUpper uni (endBanner1 title)) (by omega) rfl)
    have h2 := (Index_eq_neg_one_iff data _).2 (hprio 1 (ToUpper uni (endBanner2 title)) (by omega) rfl)
    simp only [endInd, h1, h2, hi, if_true]
  | k + 3, hb, _ =>
    simp [endBanners] at hb

set_option maxRecDepth 100000 in
/-- C7 on `thirdEndFile`, where only the third end banner occurs, at offset 70. -/
theorem C7_end_offset_witness :
    ((endBanners id (lit "A"))[2]? = some (lit "***END OF THE PROJECT GUTENBERG EBOOK A***")
      ∧ (∀ j b1, j < 2 → (endBanners id (lit "A"))[j]? = some b1 → ¬ Occurs thirdEndFile b1)
      ∧ FirstOccAt thirdEndFile (lit "***END OF THE PROJECT GUTENBERG EBOOK A***") 70)
    ∧ endInd id (lit "A") thirdEndFile = (70 : Int) :=
  have hb : (endBanners id (lit "A"))[2]?
      = some (lit "***END OF THE PROJECT GUTENBERG EBOOK A***") := by decide
  have hprio : ∀ j b1, j < 2 → (endBanners id (lit "A"))[j]? = some b1
      → ¬ Occurs thirdEndFile b1 := by
    intro j b1 hj hb1
    match j, hj, hb1 with
    | 0, _, hb1 =>
      simp only [endBanners, List.getElem?_cons_zero, Option.some.injEq] at hb1
      subst hb1
      exact (Index_eq_neg_one_iff _ _).1 (by decide)
    | 1, _, hb1 =>
      simp only [endBanners, List.getElem?_cons_succ, List.getElem?_cons_zero,
        Option.some.injEq] at hb1
      subst hb1
      exact (Index_eq_neg_one_iff _ _).1 (by decide)
  have hocc : FirstOccAt thirdEndFile (lit "***END OF THE PROJECT GUTENBERG EBOOK A***") 70 :=
    firstOccAt_of_Index _ _ 70 (by decide)
  ⟨⟨hb, hprio, hocc⟩, C7_end_offset id (lit "A") thirdEndFile 2 70 _ hb hprio hocc⟩

set_option maxRecDepth 100000 in
/-- C8 fails on `mixedCaseFile`. Its start banner, at offset 41, differs from the
banner searched for (`... EBOOK MOBY DICK ***`) only in the case of the letters
of the title, and so does its end banner, at offset 105; the search finds
neither of them: the start offset is 54 and not 41 + 55, the end offset is
`-1`, and `parseBookFile` ends in the panic of the slice expression. -/
theorem C8_mixed_case_not_found :
    (lit "*** START OF THIS PROJECT GUTENBERG EBOOK Moby Dick ***").map upperByte
        = ToUpper id (startBanner1 (lit "Moby Dick"))
    ∧ Index mixedCaseFile (lit "*** START OF THIS PROJECT GUTENBERG EBOOK Moby Dick ***") = 41
    ∧ (lit "*** END OF THIS PROJECT GUTENBERG EBOOK Moby Dick ***").map upperByte
        = ToUpper id (endBanner1 (lit "Moby Dick"))
    ∧ Index mixedCaseFile (lit "*** END OF THIS PROJECT GUTENBERG EBOOK Moby Dick ***") = 105
    ∧ Index mixedCaseFile (ToUpper id (startBanner1 (lit "Moby Dick"))) = -1
    ∧ startInd id (lit "Moby Dick") mixedCaseFile = 54
    ∧ endInd id (lit "Moby Dick") mixedCaseFile = -1
    ∧ parseBookFile id mixedCaseFile = .error .sliceOutOfRange := by
  refine ⟨?_, ?_, ?_, ?_, ?_, ?_, ?_, ?_⟩ <;> decide

/-- C8, amended. The banner is searched for byte by byte in its upper-cased
form, whatever the case of the letters of the title in the header: for an ASCII
title, if the upper-cased first start banner has its first occurrence in the
content at offset `i` and the upper-cased first end banner at offset `j`, then
the start offset is `i` plus the length of that banner and the end offset is
`j`. -/
theorem C8_upper_case_banner_found (uni : GoString → GoString) (title data : GoString)
    (i j : Nat) (hascii : isASCII title = true)
    (hs : FirstOccAt data ((startBanner1 title).map upperByte) i)
    (he : FirstOccAt data ((endBanner1 title).map upperByte) j) :
    startInd uni title data
        = (i : Int) + (((startBanner1 title).map upperByte).length : Int)
    ∧ endInd uni title data = (j : Int) := by
  have e1 := ToUpper_ascii uni _ (isASCII_startBanner1 title hascii)
  have e2 := ToUpper_ascii uni _ (isASCII_endBanner1 title hascii)
  have h1 := Index_eq_of_firstOccAt _ _ _ hs
  have h2 := Index_eq_of_firstOccAt _ _ _ he
  constructor
  · rw [startInd_eq, e1, h1, List.length_map]
    omega
  · have hne : (j : Int) ≠ -1 := by omega
    simp only [endInd, e2, h2, hne, if_false]

set_option maxRecDepth 100000 in
/-- C8, amended, on `upperCaseFile`: the header writes `Moby Dick`, the banners
`MOBY DICK`; the start banner is found at 41 and the end banner at 105. -/
theorem C8_upper_case_banner_found_witness :
    (isASCII (lit "Moby Dick") = true
      ∧ FirstOccAt upperCaseFile ((startBanner1 (lit "Moby Dick")).map upperByte) 41
      ∧ FirstOccAt upperCaseFile ((endBanner1 (lit "Moby Dick")).map upperByte) 105)
    ∧ (startInd id (lit "Moby Dick") upperCaseFile
        = (41 : Int) + (((startBanner1 (lit "Moby Dick")).map upperByte).length : Int)
      ∧ endInd id (lit "Moby Dick") upperCaseFile = (105 : Int)) :=
  have h0 : isASCII (lit "Moby Dick") = true := by decide
  have h1 : FirstOccAt upperCaseFile ((startBanner1 (lit "Moby Dick")).map upperByte) 41 :=
    firstOccAt_of_Index _ _ 41 (by decide)
  have h2 : FirstOccAt upperCaseFile ((endBanner1 (lit "Moby Dick")).map upperByte) 105 :=
    firstOccAt_of_Index _ _ 105 (by decide)
  ⟨⟨h0, h1, h2⟩,
    C8_upper_case_banner_found id (lit "Moby Dick") upperCaseFile 41 105 h0 h1 h2⟩

/-! ## Properties of the header scan -/

theorem dropCR_initial (l : GoString) : dropCR l <+: l := by
  unfold dropCR
  split
  · exact List.dropLast_prefix l
  · exact List.prefix_refl l

theorem occurs_cons (c : Nat) (cs sub : GoString) (h : Occurs cs sub) :
    Occurs (c :: cs) sub := by
  obtain ⟨j, hj⟩ := h
  exact ⟨j + 1, (occursAt_succ c cs sub j).2 hj⟩

/-- A line delimited by `rawLinesAux` starts at the beginning of the text read
so far or right after a newline byte of the input. -/
theorem prefix_of_mem_rawLinesAux (pre : GoString) (data : GoString) :
    ∀ (cur l : GoString), l ∈ rawLinesAux data cur → pre <+: l →
      pre <+: cur.reverse ++ data ∨ Occurs data (10 :: pre) := by
  induction data with
  | nil =>
    intro cur l hl hp
    simp only [rawLinesAux] at hl
    split at hl
    · simp at hl
    · simp only [List.mem_singleton] at hl
      subst hl
      left
      simpa using hp
  | cons c cs ih =>
    intro cur l hl hp
    simp only [rawLinesAux] at hl
    split at hl
    · rename_i hc
      subst hc
      rcases List.mem_cons.1 hl with h | h
      · subst h
        left
        exact hp.trans (List.prefix_append _ _)
      · right
        rcases ih [] l h hp with h1 | h1
        · obtain ⟨post, e⟩ := h1
          simp only [List.reverse_nil, List.nil_append] at e
          exact ⟨0, [], post, by simp [e], rfl⟩
        · exact occurs_cons _ _ _ h1
    · rcases ih (c :: cur) l hl hp with h1 | h1
      · left
        simpa using h1
      · right
        exact occurs_cons _ _ _ h1

/-- No line of the file begins with `pre` unless `pre` stands at the beginning
of the file or after a newline. -/
theorem not_prefix_of_mem_rawLines (data pre : GoString) (h : ¬ LineStartsWith data pre) :
    ∀ l ∈ rawLines data, ¬ pre <+: l := by
  intro l hl hp
  apply h
  rcases prefix_of_mem_rawLinesAux pre data [] l hl hp with h1 | h1
  · left; simpa using h1
  · right; exact h1

theorem hasPrefixStr_dropCR (l pre : GoString) (h : ¬ pre <+: l) :
    hasPrefixStr (dropCR l) pre = false := by
  cases hx : hasPrefixStr (dropCR l) pre with
  | false => rfl
  | true =>
    exact absurd ((List.isPrefixOf_iff_prefix.1 hx).trans (dropCR_initial l)) h

/-- Without a line beginning with `Author:` the scan leaves the author variable
as it was, and without a line beginning with `Title:` the title variable. -/
theorem scanHeader_no_marker (lines : List GoString) :
    ∀ (title author : GoString) (r : GoString × GoString),
      (∀ l ∈ lines, ¬ lit "Author:" <+: l) →
      scanHeader lines title author = some r →
      r.2 = author ∧ ((∀ l ∈ lines, ¬ lit "Title:" <+: l) → r.1 = title) := by
  induction lines with
  | nil =>
    intro title author r _ h
    simp only [scanHeader, Option.some.injEq] at h
    subst h
    exact ⟨rfl, fun _ => rfl⟩
  | cons raw rest ih =>
    intro title author r hA h
    have hA0 := hasPrefixStr_dropCR raw _ (hA raw (List.mem_cons_self _ _))
    simp only [scanHeader, hA0, Bool.false_eq_true, and_false, if_false] at h
    split at h
    · simp at h
    · obtain ⟨h1, h2⟩ := ih _ author r (fun l hl => hA l (List.mem_cons_of_mem _ hl)) h
      refine ⟨h1, fun hT => ?_⟩
      have hT0 := hasPrefixStr_dropCR raw _ (hT raw (List.mem_cons_self _ _))
      rw [h2 (fun l hl => hT l (List.mem_cons_of_mem _ hl))]
      simp only [hT0, Bool.false_eq_true, and_false, if_false]

/-- The scan completes when no line reaches the token limit of the scanner. -/
theorem scanHeader_total (lines : List GoString) :
    ∀ (title author : GoString), (∀ l ∈ lines, l.length < maxScanTokenSize) →
      ∃ r, scanHeader lines title author = some r := by
  induction lines with
  | nil => intro title author _; exact ⟨_, rfl⟩
  | cons raw rest ih =>
    intro title author h
    have h0 : ¬ maxScanTokenSize ≤ raw.length :=
      Nat.not_le.2 (h raw (List.mem_cons_self _ _))
    simp only [scanHeader, h0, if_false]
    split
    · exact ⟨_, rfl⟩
    · exact ih _ _ (fun l hl => h l (List.mem_cons_of_mem _ hl))

/-- C10. For every file in which no line begins with `Author:`, the book
returned by `parseBookFile` has the author `Unknown Author`, and the empty
title when no line begins with `Title:` either; and the header scan does reach
this result whenever no line of the file exceeds the token limit of the
scanner. -/
theorem C10_header_defaults (uni : GoString → GoString) (data : GoString)
    (hA : ¬ LineStartsWith data (lit "Author:")) :
    (∀ b, parseBookFile uni data = .ok b →
        b.author = lit "Unknown Author"
        ∧ (¬ LineStartsWith data (lit "Title:") → b.title = []))
    ∧ ((∀ l ∈ rawLines data, l.length < maxScanTokenSize) →
        ∃ title, scanHeader (rawLines data) [] [] = some (title, [])
          ∧ authorOrDefault [] = lit "Unknown Author"
          ∧ (¬ LineStartsWith data (lit "Title:") → title = [])) := by
  have hlines := not_prefix_of_mem_rawLines data _ hA
  constructor
  · intro b hb
    unfold parseBookFile at hb
    cases hs : scanHeader (rawLines data) [] [] with
    | none => rw [hs] at hb; simp at hb
    | some r =>
      obtain ⟨t, a0⟩ := r
      rw [hs] at hb
      simp only at hb
      obtain ⟨h1, h2⟩ := scanHeader_no_marker _ _ _ _ hlines hs
      simp only at h1 h2
      cases hsl : slice data (startInd uni t data) (endInd uni t data) with
      | none => rw [hsl] at hb; simp at hb
      | some sl =>
        rw [hsl] at hb
        simp only [Except.ok.injEq] at hb
        subst hb
        subst h1
        refine ⟨rfl, fun hT => ?_⟩
        exact h2 (not_prefix_of_mem_rawLines data _ hT)
  · intro hlen
    obtain ⟨r, hr⟩ := scanHeader_total (rawLines data) [] [] hlen
    obtain ⟨t, a0⟩ := r
    obtain ⟨h1, h2⟩ := scanHeader_no_marker _ _ _ _ hlines hr
    simp only at h1 h2
    subst h1
    exact ⟨t, hr, rfl, fun hT => h2 (not_prefix_of_mem_rawLines data _ hT)⟩

set_option maxRecDepth 100000 in
/-- C10 on `noHeaderFile`, which has neither an `Author:` nor a `Title:` line:
the book returned has the author `Unknown Author` and the empty title. -/
theorem C10_header_defaults_witness :
    (¬ LineStartsWith noHeaderFile (lit "Author:"))
    ∧ parseBookFile id noHeaderFile
        = .ok ⟨[], lit "Unknown Author", [lit "Some text."]⟩
    ∧ ((⟨[], lit "Unknown Author", [lit "Some text."]⟩ : ParseBook).author
          = lit "Unknown Author"
        ∧ (¬ LineStartsWith noHeaderFile (lit "Title:")
            → (⟨[], lit "Unknown Author", [lit "Some text."]⟩ : ParseBook).title = [])) :=
  have hA : ¬ LineStartsWith noHeaderFile (lit "Author:") := fun h =>
    h.elim (fun hp => absurd (List.isPrefixOf_iff_prefix.2 hp) (by decide))
      (fun ho => (Index_eq_neg_one_iff _ _).1 (by decide) ho)
  have hp : parseBookFile id noHeaderFile
      = .ok ⟨[], lit "Unknown Author", [lit "Some text."]⟩ := by decide
  ⟨hA, hp, (C10_header_defaults id noHeaderFile hA).1 _ hp⟩

/-! ## Properties of the paragraph split -/

theorem lastNewline_some (l : GoString) :
    ∀ i, lastNewline l = some i → ∃ a b, l = a ++ 10 :: b ∧ a.length = i := by
  induction l with
  | nil => intro i h; simp [lastNewline] at h
  | cons c cs ih =>
    intro i h
    simp only [lastNewline] at h
    cases hx : lastNewline cs with
    | some j =>
      rw [hx] at h
      simp only [Option.some.injEq] at h
      obtain ⟨a, b, e, hl⟩ := ih j hx
      exact ⟨c :: a, b, by simp [e], by simp [hl, h]⟩
    | none =>
      rw [hx] at h
      simp only at h
      split at h
      · rename_i hc
        simp only [Option.some.injEq] at h
        exact ⟨[], cs, by simp [hc], by simp [h]⟩
      · simp at h

/-- A match found by `matchLen` is a separator standing at the beginning of the
string: a newline, one or more whitespace bytes, a newline. -/
theorem matchLen_some (s : GoString) (n : Nat) (h : matchLen s = some n) :
    ∃ w rest, w ≠ [] ∧ (∀ c ∈ w, isSpace c = true)
      ∧ s = 10 :: (w ++ [10]) ++ rest ∧ n = w.length + 2 := by
  match s, h with
  | c :: w :: rest, h =>
    simp only [matchLen] at h
    split at h
    · rename_i hc
      cases hx : lastNewline (rest.takeWhile isSpace) with
      | none => rw [hx] at h; simp at h
      | some i =>
        rw [hx] at h
        simp only [Option.map_some', Option.some.injEq] at h
        obtain ⟨a, b, e, hl⟩ := lastNewline_some _ i hx
        have hrest : rest = a ++ 10 :: (b ++ rest.dropWhile isSpace) := by
          conv_lhs => rw [← List.takeWhile_append_dropWhile isSpace rest, e]
          simp
        refine ⟨w :: a, b ++ rest.dropWhile isSpace, by simp, ?_, ?_, ?_⟩
        · intro x hx1
          rcases List.mem_cons.1 hx1 with hx2 | hx2
          · rw [hx2]; exact hc.2
          · have : x ∈ rest.takeWhile isSpace := by rw [e]; simp [hx2]
            exact List.mem_takeWhile_imp this
        · rw [hc.1]
          conv_lhs => rw [hrest]
          simp
        · simp only [List.length_cons]
          omega
    · simp at h
  | [], h => simp [matchLen] at h
  | [c], h => simp [matchLen] at h

/-- The result of `splitAux`: the first part carries the separator in progress,
every later part carries a full separator, and the parts put together give back
the text scanned. -/
theorem splitAux_spec (s : GoString) :
    ∀ (skip : Nat) (cur sep : GoString), skip ≤ s.length → (0 < skip → cur = []) →
      ∃ piece tail,
        splitAux s skip cur sep = (sep.reverse ++ s.take skip, piece) :: tail
        ∧ (∀ x ∈ tail, IsSeparator x.1)
        ∧ s.take skip ++ piece ++ (tail.map (fun x => x.1 ++ x.2)).flatten
            = cur.reverse ++ s := by
  induction s with
  | nil =>
    intro skip cur sep hs _
    have : skip = 0 := by simpa using hs
    subst this
    exact ⟨cur.reverse, [], by simp [splitAux], by simp, by simp⟩
  | cons c cs ih =>
    intro skip cur sep hs hcur
    cases skip with
    | succ k =>
      have hc : cur = [] := hcur (Nat.succ_pos k)
      subst hc
      obtain ⟨piece, tail, e, h1, h2⟩ := ih k [] (c :: sep)
        (by simpa using hs) (fun _ => rfl)
      refine ⟨piece, tail, ?_, h1, ?_⟩
      · simp only [splitAux, e]
        simp
      · simp only [List.take_succ_cons, List.cons_append, List.reverse_nil, List.nil_append]
        simp only [List.reverse_nil, List.nil_append] at h2
        rw [h2]
    | zero =>
      simp only [splitAux]
      cases hm : matchLen (c :: cs) with
      | some n =>
        obtain ⟨w, rest, hw, hsp, e, hn⟩ := matchLen_some _ _ hm
        simp only [List.cons_append, List.cons.injEq] at e
        obtain ⟨hc, hcs⟩ := e
        have hlen : n - 1 ≤ cs.length := by
          rw [hcs, hn]; simp
        obtain ⟨piece, tail, e2, h1, h2⟩ := ih (n - 1) [] [c] hlen (fun _ => rfl)
        have htake : cs.take (n - 1) = w ++ [10] := by
          rw [hcs, hn]
          have : w.length + 2 - 1 = (w ++ [10]).length := by simp
          rw [this, List.take_left]
        refine ⟨cur.reverse, ([c] ++ cs.take (n - 1), piece) :: tail, ?_, ?_, ?_⟩
        · simp [e2]
        · intro x hx
          rcases List.mem_cons.1 hx with hx1 | hx1
          · rw [hx1]
            exact ⟨w, hw, hsp, by simp [htake, hc]⟩
          · exact h1 x hx1
        · simp only [List.take_zero, List.nil_append, List.map_cons, List.flatten_cons]
          simp only [List.reverse_nil, List.nil_append] at h2
          rw [List.append_assoc [c], List.append_assoc [c], h2]
          simp
      | none =>
        obtain ⟨piece, tail, e, h1, h2⟩ := ih 0 (c :: cur) sep (Nat.zero_le _)
          (fun h => absurd h (Nat.lt_irrefl 0))
        refine ⟨piece, tail, ?_, h1, ?_⟩
        · simpa using e
        · simpa using h2

theorem joinWith_parts (tl : List (GoString × GoString)) :
    ∀ p : GoString, joinWith (p :: tl.map Prod.snd) (tl.map Prod.fst)
      = p ++ (tl.map (fun x => x.1 ++ x.2)).flatten := by
  induction tl with
  | nil => intro p; simp [joinWith]
  | cons x tl ih =>
    intro p
    simp only [List.map_cons, joinWith, ih, List.flatten_cons, List.append_assoc]

/-- C4. The paragraph split is a total partition of the body: for every string
`s` there are separators, one between each two consecutive paragraphs of
`Split s`, each of them a newline, one or more whitespace bytes and a newline,
such that the paragraphs and separators put together in order give back `s`. -/
theorem C4_split_partition (s : GoString) :
    ∃ seps : List GoString,
      seps.length + 1 = (Split s).length
      ∧ (∀ sp ∈ seps, IsSeparator sp)
      ∧ joinWith (Split s) seps = s := by
  obtain ⟨piece, tail, e, h1, h2⟩ := splitAux_spec s 0 [] [] (Nat.zero_le _)
    (fun h => absurd h (Nat.lt_irrefl 0))
  refine ⟨tail.map Prod.fst, ?_, ?_, ?_⟩
  · simp [Split, splitParts, e]
  · intro sp hsp
    obtain ⟨x, hx, rfl⟩ := List.mem_map.1 hsp
    exact h1 x hx
  · simp only [Split, splitParts, e, List.map_cons]
    rw [joinWith_parts]
    simpa using h2

theorem takeWhile_append_of_stop (f : Nat → Bool) (r : GoString) :
    ∀ rest : GoString, (∃ x ∈ r, f x = false) →
      (r ++ rest).takeWhile f = r.takeWhile f := by
  induction r with
  | nil => intro rest h; simp at h
  | cons c r ih =>
    intro rest h
    simp only [List.cons_append, List.takeWhile_cons]
    cases hc : f c with
    | false => rfl
    | true =>
      simp only [if_true]
      congr 1
      apply ih
      obtain ⟨x, hx, hfx⟩ := h
      rcases List.mem_cons.1 hx with h1 | h1
      · rw [h1, hc] at hfx; simp at hfx
      · exact ⟨x, h1, hfx⟩

theorem takeWhile_run (f : Nat → Bool) (a : GoString) :
    ∀ (x : Nat) (rest : GoString), (∀ c ∈ a, f c = true) → f x = false →
      (a ++ x :: rest).takeWhile f = a := by
  induction a with
  | nil => intro x rest _ hx; simp [List.takeWhile_cons, hx]
  | cons c a ih =>
    intro x rest ha hx
    have hc : f c = true := ha c (List.mem_cons_self _ _)
    simp only [List.cons_append, List.takeWhile_cons, hc, if_true]
    congr 1
    exact ih x rest (fun d hd => ha d (List.mem_cons_of_mem _ hd)) hx

theorem lastNewline_concat (a : GoString) : lastNewline (a ++ [10]) = some a.length := by
  induction a with
  | nil => simp [lastNewline]
  | cons c a ih => simp [lastNewline, ih]

theorem isSpace_ten : isSpace 10 = true := by decide

/-- A separator followed by a byte that is not whitespace is matched as a whole
and no further. -/
theorem matchLen_separator (sp : GoString) (x : Nat) (rest : GoString)
    (hsp : IsSeparator sp) (hx : isSpace x = false) :
    matchLen (sp ++ x :: rest) = some sp.length := by
  obtain ⟨w, hw, hall, rfl⟩ := hsp
  cases w with
  | nil => exact absurd rfl hw
  | cons w0 w =>
    have h0 : isSpace w0 = true := hall w0 (List.mem_cons_self _ _)
    have hrun : ∀ c ∈ w ++ [10], isSpace c = true := by
      intro c hc
      rcases List.mem_append.1 hc with h | h
      · exact hall c (List.mem_cons_of_mem _ h)
      · simp only [List.mem_singleton] at h; rw [h]; exact isSpace_ten
    have ht := takeWhile_run isSpace (w ++ [10]) x rest hrun hx
    simp only [List.cons_append, matchLen, h0, and_self, if_true]
    rw [ht, lastNewline_concat]
    simp

theorem getLast?_of_suffix (t p : GoString) (h : t <:+ p) (ht : t ≠ []) :
    t.getLast? = p.getLast? := by
  obtain ⟨a, rfl⟩ := h
  cases t with
  | nil => exact absurd rfl ht
  | cons c t =>
    rw [List.getLast?_append]
    cases h : (c :: t).getLast? with
    | none => exact absurd (List.getLast?_eq_none_iff.1 h) (by simp)
    | some z => rfl

theorem matchLen_of_not_newline (c : Nat) (rest : GoString) (h : c ≠ 10) :
    matchLen (c :: rest) = none := by
  cases rest with
  | nil => rfl
  | cons w r => simp [matchLen, h]

theorem isSpace_ne_ten (c : Nat) (h : isSpace c = false) : c ≠ 10 := by
  intro e
  rw [e, isSpace_ten] at h
  exact absurd h (by simp)

/-- No match begins inside a clean paragraph, whatever text follows it. -/
theorem matchLen_in_clean (p : GoString) (hp : cleanParagraph p = true)
    (t : GoString) (ht : t <:+ p) (hne : t ≠ []) (rest : GoString) :
    matchLen (t ++ rest) = none := by
  simp only [cleanParagraph, Bool.and_eq_true, List.all_eq_true] at hp
  obtain ⟨⟨_, hlast⟩, htails⟩ := hp
  have hm : matchLen t = none := by
    have := htails t ((List.mem_tails _ _).2 ht)
    simpa using this
  have hl := getLast?_of_suffix t p ht hne
  obtain ⟨z, hz, hzs⟩ : ∃ z, t.getLast? = some z ∧ isSpace z = false := by
    rw [hl]
    cases hx : p.getLast? with
    | none => rw [hx] at hlast; simp at hlast
    | some z => rw [hx] at hlast; exact ⟨z, rfl, by simpa using hlast⟩
  match t, hne, hm, hz with
  | [c], _, _, hz =>
    simp only [List.getLast?_singleton, Option.some.injEq] at hz
    subst hz
    exact matchLen_of_not_newline _ _ (isSpace_ne_ten _ hzs)
  | [c, w], _, _, hz =>
    have hw : w = z := by simpa using hz
    subst hw
    simp [matchLen, hzs]
  | c :: w :: x :: r, _, hm, hz =>
    have hz1 : (x :: r).getLast? = some z := by
      simpa [List.getLast?_cons_cons] using hz
    have hstop : ∃ y ∈ x :: r, isSpace y = false :=
      ⟨z, List.mem_of_getLast?_eq_some hz1, hzs⟩
    simp only [matchLen] at hm
    simp only [List.cons_append, matchLen]
    rw [← List.cons_append, takeWhile_append_of_stop isSpace (x :: r) rest hstop]
    exact hm

/-- Scanning over a text inside which no match begins only extends the current
piece. -/
theorem splitAux_piece (p : GoString) :
    ∀ (rest cur sep : GoString),
      (∀ t, t <:+ p → t ≠ [] → matchLen (t ++ rest) = none) →
      splitAux (p ++ rest) 0 cur sep = splitAux rest 0 (p.reverse ++ cur) sep := by
  induction p with
  | nil => intro rest cur sep _; simp
  | cons c p ih =>
    intro rest cur sep h
    have h0 : matchLen (c :: (p ++ rest)) = none :=
      h (c :: p) (List.suffix_refl _) (by simp)
    rw [List.cons_append, splitAux]
    simp only [h0]
    rw [ih rest (c :: cur) sep (fun t ht hne => h t (ht.trans (List.suffix_cons c p)) hne)]
    simp

/-- Passing over the rest of a match moves it to the separator in progress. -/
theorem splitAux_skip (x : GoString) :
    ∀ (rest cur sep : GoString),
      splitAux (x ++ rest) x.length cur sep = splitAux rest 0 cur (x.reverse ++ sep) := by
  induction x with
  | nil => intro rest cur sep; simp
  | cons c x ih =>
    intro rest cur sep
    rw [List.cons_append, List.length_cons, splitAux, ih]
    simp

/-- At a match the current piece ends and scanning resumes after the match. -/
theorem splitAux_match (sp rest cur sep : GoString)
    (h : matchLen (sp ++ rest) = some sp.length) :
    splitAux (sp ++ rest) 0 cur sep
      = (sep.reverse, cur.reverse) :: splitAux rest 0 [] sp.reverse := by
  cases sp with
  | nil =>
    obtain ⟨w, r, _, _, _, hn⟩ := matchLen_some _ _ h
    simp at hn
  | cons c sp =>
    rw [List.cons_append] at h
    rw [List.cons_append, splitAux]
    simp only [h, List.length_cons, Nat.add_sub_cancel]
    rw [splitAux_skip]
    simp

theorem joinWith_head (q : GoString) (ps seps : List GoString) :
    ∃ more, joinWith (q :: ps) seps = q ++ more := by
  cases ps with
  | nil => exact ⟨[], by simp [joinWith]⟩
  | cons r ps =>
    cases seps with
    | nil => exact ⟨_, rfl⟩
    | cons sp seps => exact ⟨sp ++ joinWith (r :: ps) seps, by simp [joinWith]⟩

theorem clean_head (q : GoString) (h : cleanParagraph q = true) :
    ∃ x q1, q = x :: q1 ∧ isSpace x = false := by
  cases q with
  | nil => simp [cleanParagraph] at h
  | cons x q1 =>
    refine ⟨x, q1, rfl, ?_⟩
    simp only [cleanParagraph, List.head?_cons, Bool.and_eq_true] at h
    simpa using h.1.1

/-- Splitting a text made of clean paragraphs and separators gives back the
paragraphs. -/
theorem splitAux_joinWith (ps : List GoString) :
    ∀ (seps : List GoString) (p cur sep : GoString),
      (∀ q ∈ p :: ps, cleanParagraph q = true) →
      seps.length = ps.length → (∀ sp ∈ seps, IsSeparator sp) →
      (splitAux (joinWith (p :: ps) seps) 0 cur sep).map Prod.snd
        = (cur.reverse ++ p) :: ps := by
  induction ps with
  | nil =>
    intro seps p cur sep _ _ _
    have e := splitAux_piece p [] cur sep (fun t ht hne => by
      rw [List.append_nil]
      rename_i hc _ _
      have := matchLen_in_clean p (hc p (List.mem_cons_self _ _)) t ht hne []
      simpa using this)
    simp only [List.append_nil] at e
    simp [joinWith, e, splitAux]
  | cons q ps ih =>
    intro seps p cur sep hc hlen hseps
    cases seps with
    | nil => simp at hlen
    | cons sp seps =>
      have hp := hc p (List.mem_cons_self _ _)
      have hq := hc q (List.mem_cons_of_mem _ (List.mem_cons_self _ _))
      have hsp := hseps sp (List.mem_cons_self _ _)
      obtain ⟨more, hj⟩ := joinWith_head q ps seps
      obtain ⟨x, q1, hx, hxs⟩ := clean_head q hq
      have e1 : joinWith (p :: q :: ps) (sp :: seps)
          = p ++ (sp ++ joinWith (q :: ps) seps) := by
        simp [joinWith]
      have e2 := splitAux_piece p (sp ++ joinWith (q :: ps) seps) cur sep
        (fun t ht hne => matchLen_in_clean p hp t ht hne _)
      have e3 : matchLen (sp ++ joinWith (q :: ps) seps) = some sp.length := by
        rw [hj, hx]
        exact matchLen_separator sp x (q1 ++ more) hsp hxs
      rw [e1, e2, splitAux_match _ _ _ _ e3]
      simp only [List.map_cons, List.reverse_append, List.reverse_reverse]
      rw [ih seps q [] sp.reverse (fun r hr => hc r (List.mem_cons_of_mem _ hr))
        (by simpa using hlen) (fun r hr => hseps r (List.mem_cons_of_mem _ hr))]
      simp

/-- The split of clean paragraphs joined by separators is the list of the
paragraphs. -/
theorem Split_joinWith (p : GoString) (ps seps : List GoString)
    (hc : ∀ q ∈ p :: ps, cleanParagraph q = true)
    (hlen : seps.length = ps.length) (hseps : ∀ sp ∈ seps, IsSeparator sp) :
    Split (joinWith (p :: ps) seps) = p :: ps := by
  have := splitAux_joinWith ps seps p [] [] hc hlen hseps
  simpa [Split, splitParts] using this

/-! ## The whole of `parseBookFile` on a well-formed file -/

theorem lit_title_sp : lit "Title: " = [84, 105, 116, 108, 101, 58, 32] := by decide

theorem lit_author_sp : lit "Author: " = [65, 117, 116, 104, 111, 114, 58, 32] := by decide

theorem lit_title : lit "Title:" = [84, 105, 116, 108, 101, 58] := by decide

theorem lit_author : lit "Author:" = [65, 117, 116, 104, 111, 114, 58] := by decide

/-- A text without newline that is followed by a newline is one line. -/
theorem rawLinesAux_line (l : GoString) :
    ∀ (rest cur : GoString), 10 ∉ l →
      rawLinesAux (l ++ 10 :: rest) cur = (cur.reverse ++ l) :: rawLinesAux rest [] := by
  induction l with
  | nil => intro rest cur _; simp [rawLinesAux]
  | cons c l ih =>
    intro rest cur h
    have hc : c ≠ 10 := fun e => h (by simp [e])
    have hl : 10 ∉ l := fun e => h (List.mem_cons_of_mem _ e)
    rw [List.cons_append, rawLinesAux]
    simp only [hc, if_false]
    rw [ih rest (c :: cur) hl]
    simp

theorem dropCR_append (a t : GoString) (ha : ∃ z, a.getLast? = some z ∧ z ≠ 13)
    (ht : t.getLast? ≠ some 13) : dropCR (a ++ t) = a ++ t := by
  have h : (a ++ t).getLast? ≠ some 13 := by
    rw [List.getLast?_append]
    cases hx : t.getLast? with
    | none =>
      obtain ⟨z, hz, hz13⟩ := ha
      simp only [Option.or, hz]
      intro e
      exact hz13 (Option.some.inj e)
    | some y =>
      rw [hx] at ht
      exact ht
  simp only [dropCR, h, if_false]

/-- The header scan on the two header lines returns the title and the author
written on them. -/
theorem scanHeader_header (T A : GoString) (more : List GoString)
    (hT : T.getLast? ≠ some 13) (hTlen : T.length + 7 < maxScanTokenSize)
    (hA : A.getLast? ≠ some 13) (hAlen : A.length + 8 < maxScanTokenSize) :
    scanHeader ((lit "Title: " ++ T) :: (lit "Author: " ++ A) :: more) [] []
      = some (T, A) := by
  have d1 : dropCR (lit "Title: " ++ T) = lit "Title: " ++ T :=
    dropCR_append _ _ ⟨32, by decide, by decide⟩ hT
  have d2 : dropCR (lit "Author: " ++ A) = lit "Author: " ++ A :=
    dropCR_append _ _ ⟨32, by decide, by decide⟩ hA
  have l1 : ¬ maxScanTokenSize ≤ (lit "Title: " ++ T).length := by
    rw [lit_title_sp]; simp only [List.length_append, List.length_cons, List.length_nil]; omega
  have l2 : ¬ maxScanTokenSize ≤ (lit "Author: " ++ A).length := by
    rw [lit_author_sp]; simp only [List.length_append, List.length_cons, List.length_nil]; omega
  rw [scanHeader]
  simp only [l1, if_false, d1]
  rw [scanHeader]
  simp only [l2, if_false, d2]
  simp [lit_title_sp, lit_author_sp, lit_title, lit_author, hasPrefixStr, List.isPrefixOf]

/-- The slice between a prefix and a suffix is the middle part. -/
theorem slice_mid (a b c : GoString) :
    slice (a ++ (b ++ c)) (a.length : Int) ((a.length : Int) + (b.length : Int)) = some b := by
  have h : 0 ≤ (a.length : Int) ∧ (a.length : Int) ≤ (a.length : Int) + (b.length : Int)
      ∧ (a.length : Int) + (b.length : Int) ≤ ((a ++ (b ++ c)).length : Int) := by
    simp only [List.length_append, Nat.cast_add]
    omega
  have e : ((a.length : Int) + (b.length : Int)).toNat - a.length = b.length := by
    omega
  simp only [slice, h, and_self, if_true, Int.toNat_ofNat, List.drop_left, e, List.take_left]

theorem rawLines_bookFile (T A rest : GoString) (hT : 10 ∉ T) (hA : 10 ∉ A) :
    rawLines (bookHeader T A ++ rest)
      = (lit "Title: " ++ T) :: (lit "Author: " ++ A) :: rawLines rest := by
  have h1 : 10 ∉ lit "Title: " ++ T := by
    intro h
    rcases List.mem_append.1 h with h | h
    · exact absurd h (by decide)
    · exact hT h
  have h2 : 10 ∉ lit "Author: " ++ A := by
    intro h
    rcases List.mem_append.1 h with h | h
    · exact absurd h (by decide)
    · exact hA h
  have e : bookHeader T A ++ rest
      = (lit "Title: " ++ T) ++ 10 :: ((lit "Author: " ++ A) ++ 10 :: rest) := by
    simp [bookHeader]
  rw [rawLines, e, rawLinesAux_line _ _ _ h1, rawLinesAux_line _ _ _ h2]
  simp [rawLines]

/-- On a file whose banners are the upper-cased first banners of an ASCII title
and do not occur earlier in the file, the slice of line 183 is the text between
the banners. -/
theorem slice_between_banners (uni : GoString → GoString) (T pre body post : GoString)
    (hT : isASCII T = true)
    (hS : ∀ j, OccursAt
        (pre ++ ((startBanner1 T).map upperByte ++ body ++ ((endBanner1 T).map upperByte ++ post)))
        ((startBanner1 T).map upperByte) j → pre.length ≤ j)
    (hE : ∀ j, OccursAt
        (pre ++ ((startBanner1 T).map upperByte ++ body ++ ((endBanner1 T).map upperByte ++ post)))
        ((endBanner1 T).map upperByte) j
          → pre.length + (startBanner1 T).length + body.length ≤ j) :
    slice (pre ++ ((startBanner1 T).map upperByte ++ body
            ++ ((endBanner1 T).map upperByte ++ post)))
        (startInd uni T (pre ++ ((startBanner1 T).map upperByte ++ body
            ++ ((endBanner1 T).map upperByte ++ post))))
        (endInd uni T (pre ++ ((startBanner1 T).map upperByte ++ body
            ++ ((endBanner1 T).map upperByte ++ post))))
      = some body := by
  have e1 := ToUpper_ascii uni _ (isASCII_startBanner1 T hT)
  have e2 := ToUpper_ascii uni _ (isASCII_endBanner1 T hT)
  have f1 : FirstOccAt
      (pre ++ ((startBanner1 T).map upperByte ++ body ++ ((endBanner1 T).map upperByte ++ post)))
      ((startBanner1 T).map upperByte) pre.length :=
    ⟨⟨pre, body ++ ((endBanner1 T).map upperByte ++ post), by simp, rfl⟩, hS⟩
  have f2 : FirstOccAt
      (pre ++ ((startBanner1 T).map upperByte ++ body ++ ((endBanner1 T).map upperByte ++ post)))
      ((endBanner1 T).map upperByte) (pre.length + (startBanner1 T).length + body.length) :=
    ⟨⟨pre ++ (startBanner1 T).map upperByte ++ body, post, by simp,
      by simp only [List.length_append, List.length_map]⟩, hE⟩
  have i1 := Index_eq_of_firstOccAt _ _ _ f1
  have i2 := Index_eq_of_firstOccAt _ _ _ f2
  have s1 : startInd uni T (pre ++ ((startBanner1 T).map upperByte ++ body
      ++ ((endBanner1 T).map upperByte ++ post)))
      = ((pre ++ (startBanner1 T).map upperByte).length : Int) := by
    rw [startInd_eq, e1, i1]
    simp only [List.length_append, List.length_map, Nat.cast_add]
    omega
  have s2 : endInd uni T (pre ++ ((startBanner1 T).map upperByte ++ body
      ++ ((endBanner1 T).map upperByte ++ post)))
      = ((pre ++ (startBanner1 T).map upperByte).length : Int) + (body.length : Int) := by
    have hne : ((pre.length + (startBanner1 T).length + body.length : Nat) : Int) ≠ -1 := by
      omega
    simp only [endInd, e2, i2, hne, if_false]
    simp only [List.length_append, List.length_map, Nat.cast_add]
  rw [s1, s2]
  have e : pre ++ ((startBanner1 T).map upperByte ++ body
        ++ ((endBanner1 T).map upperByte ++ post))
      = (pre ++ (startBanner1 T).map upperByte)
        ++ (body ++ ((endBanner1 T).map upperByte ++ post)) := by
    simp
  rw [e]
  exact slice_mid _ _ _

/-- C5, amended. For every ASCII title `T` and non-empty author `A`, neither
holding a newline nor ending in a carriage return and both short enough for the
scanner, and every file made of the header lines `Title: T` and `Author: A`,
the upper-cased first start banner, a body, and the upper-cased first end
banner, where the body consists of clean paragraph texts (not empty, first and
last byte not whitespace, no match of the pattern inside) separated by
separators that each match the pattern (a newline, one or more whitespace
bytes, a newline) and the banners do not occur earlier in the file:
`parseBookFile` returns title `T`, author `A` and exactly those paragraph texts
in order. -/
theorem C5_parse_book_file (uni : GoString → GoString) (T A p : GoString)
    (ps seps : List GoString)
    (hTascii : isASCII T = true) (hTnl : 10 ∉ T) (hTcr : T.getLast? ≠ some 13)
    (hTlen : T.length + 7 < maxScanTokenSize)
    (hAne : A ≠ []) (hAnl : 10 ∉ A) (hAcr : A.getLast? ≠ some 13)
    (hAlen : A.length + 8 < maxScanTokenSize)
    (hc : ∀ q ∈ p :: ps, cleanParagraph q = true)
    (hlen : seps.length = ps.length) (hseps : ∀ sp ∈ seps, IsSeparator sp)
    (hS : ∀ j, OccursAt (bookFile T A (joinWith (p :: ps) seps))
        ((startBanner1 T).map upperByte) j → (bookHeader T A).length ≤ j)
    (hE : ∀ j, OccursAt (bookFile T A (joinWith (p :: ps) seps))
        ((endBanner1 T).map upperByte) j
          → (bookHeader T A).length + (startBanner1 T).length
              + (joinWith (p :: ps) seps).length ≤ j) :
    parseBookFile uni (bookFile T A (joinWith (p :: ps) seps))
      = .ok ⟨T, A, p :: ps⟩ := by
  have efile : bookFile T A (joinWith (p :: ps) seps)
      = bookHeader T A ++ ((startBanner1 T).map upperByte ++ joinWith (p :: ps) seps
          ++ ((endBanner1 T).map upperByte ++ [])) := by
    simp [bookFile]
  have hscan : scanHeader (rawLines (bookFile T A (joinWith (p :: ps) seps))) [] []
      = some (T, A) := by
    rw [bookFile, rawLines_bookFile T A _ hTnl hAnl]
    exact scanHeader_header T A _ hTcr hTlen hAcr hAlen
  have hslice : slice (bookFile T A (joinWith (p :: ps) seps))
      (startInd uni T (bookFile T A (joinWith (p :: ps) seps)))
      (endInd uni T (bookFile T A (joinWith (p :: ps) seps)))
      = some (joinWith (p :: ps) seps) := by
    rw [efile]
    apply slice_between_banners uni T (bookHeader T A) (joinWith (p :: ps) seps) [] hTascii
    · rw [← efile]; exact hS
    · rw [← efile]; exact hE
  have hauthor : authorOrDefault A = A := by
    simp [authorOrDefault, hAne]
  simp only [parseBookFile, hscan, hslice, hauthor, Split_joinWith p ps seps hc hlen hseps]

set_option maxRecDepth 100000 in
/-- C5 fails on the scenario file. The two bytes of an empty line are not a
match of the pattern, which asks for at least one whitespace byte between the
two newlines; so the body `Para one.`, empty line, `Para two.` is returned as a
single paragraph, and likewise when every banner stands on a line of its
own. -/
theorem C5_scenario_single_paragraph :
    parseBookFile id scenarioFile
        = .ok ⟨lit "Moby Dick", lit "Herman Melville", [lit "Para one.\n\nPara two."]⟩
    ∧ parseBookFile id scenarioFileLines
        = .ok ⟨lit "Moby Dick", lit "Herman Melville", [lit "\nPara one.\n\nPara two.\n"]⟩
    ∧ Split (lit "Para one.\n\nPara two.") ≠ [lit "Para one.", lit "Para two."] := by
  refine ⟨?_, ?_, ?_⟩ <;> decide

set_option maxRecDepth 100000 in
/-- C5, amended, on the scenario with a separator that holds a space between
its two newlines: the paragraphs returned are `Para one.` and `Para two.`. -/
theorem C5_parse_book_file_witness :
    (isASCII (lit "Moby Dick") = true ∧ 10 ∉ lit "Moby Dick"
      ∧ (lit "Moby Dick").getLast? ≠ some 13
      ∧ (lit "Moby Dick").length + 7 < maxScanTokenSize
      ∧ lit "Herman Melville" ≠ [] ∧ 10 ∉ lit "Herman Melville"
      ∧ (lit "Herman Melville").getLast? ≠ some 13
      ∧ (lit "Herman Melville").length + 8 < maxScanTokenSize
      ∧ (∀ q ∈ [lit "Para one.", lit "Para two."], cleanParagraph q = true)
      ∧ [lit "\n \n"].length = [lit "Para two."].length
      ∧ (∀ sp ∈ [lit "\n \n"], IsSeparator sp)
      ∧ (∀ j, OccursAt (bookFile (lit "Moby Dick") (lit "Herman Melville")
            (joinWith [lit "Para one.", lit "Para two."] [lit "\n \n"]))
          ((startBanner1 (lit "Moby Dick")).map upperByte) j
            → (bookHeader (lit "Moby Dick") (lit "Herman Melville")).length ≤ j)
      ∧ (∀ j, OccursAt (bookFile (lit "Moby Dick") (lit "Herman Melville")
            (joinWith [lit "Para one.", lit "Para two."] [lit "\n \n"]))
          ((endBanner1 (lit "Moby Dick")).map upperByte) j
            → (bookHeader (lit "Moby Dick") (lit "Herman Melville")).length
                + (startBanner1 (lit "Moby Dick")).length
                + (joinWith [lit "Para one.", lit "Para two."] [lit "\n \n"]).length ≤ j))
    ∧ parseBookFile id (bookFile (lit "Moby Dick") (lit "Herman Melville")
          (joinWith [lit "Para one.", lit "Para two."] [lit "\n \n"]))
        = .ok ⟨lit "Moby Dick", lit "Herman Melville", [lit "Para one.", lit "Para two."]⟩ :=
  have h1 : isASCII (lit "Moby Dick") = true := by decide
  have h2 : 10 ∉ lit "Moby Dick" := by decide
  have h3 : (lit "Moby Dick").getLast? ≠ some 13 := by decide
  have h4 : (lit "Moby Dick").length + 7 < maxScanTokenSize := by decide
  have h5 : lit "Herman Melville" ≠ [] := by decide
  have h6 : 10 ∉ lit "Herman Melville" := by decide
  have h7 : (lit "Herman Melville").getLast? ≠ some 13 := by decide
  have h8 : (lit "Herman Melville").length + 8 < maxScanTokenSize := by decide
  have h9 : ∀ q ∈ [lit "Para one.", lit "Para two."], cleanParagraph q = true := by decide
  have h10 : [lit "\n \n"].length = [lit "Para two."].length := rfl
  have h11 : ∀ sp ∈ [lit "\n \n"], IsSeparator sp := by
    intro sp h
    rw [List.mem_singleton] at h
    subst h
    exact ⟨[32], by decide, by decide, by decide⟩
  have hS : ∀ j, OccursAt (bookFile (lit "Moby Dick") (lit "Herman Melville")
        (joinWith [lit "Para one.", lit "Para two."] [lit "\n \n"]))
      ((startBanner1 (lit "Moby Dick")).map upperByte) j
        → (bookHeader (lit "Moby Dick") (lit "Herman Melville")).length ≤ j :=
    fun j h => Nat.le_trans (by decide) ((firstOccAt_of_Index _ _ 41 (by decide)).2 j h)
  have hE : ∀ j, OccursAt (bookFile (lit "Moby Dick") (lit "Herman Melville")
        (joinWith [lit "Para one.", lit "Para two."] [lit "\n \n"]))
      ((endBanner1 (lit "Moby Dick")).map upperByte) j
        → (bookHeader (lit "Moby Dick") (lit "Herman Melville")).length
            + (startBanner1 (lit "Moby Dick")).length
            + (joinWith [lit "Para one.", lit "Para two."] [lit "\n \n"]).length ≤ j :=
    fun j h => Nat.le_trans (by decide) ((firstOccAt_of_Index _ _ 117 (by decide)).2 j h)
  ⟨⟨h1, h2, h3, h4, h5, h6, h7, h8, h9, h10, h11, hS, hE⟩,
    C5_parse_book_file id (lit "Moby Dick") (lit "Herman Melville") (lit "Para one.")
      [lit "Para two."] [lit "\n \n"] h1 h2 h3 h4 h5 h6 h7 h8 h9 h10 h11 hS hE⟩

/-! ## Number of bulk calls -/

/-- From a paragraph index `ind ≥ 1` on, the number of calls grows by one at
every multiple of 500. -/
theorem length_sizesFrom (n : Nat) :
    ∀ ind b, 1 ≤ ind →
      (sizesFrom ind b n).length + (ind - 1) / 500 = (ind + n - 1) / 500 + 1 := by
  induction n with
  | zero => intro ind b h; simp only [sizesFrom, List.length_singleton, Nat.add_zero]; omega
  | succ n ih =>
    intro ind b h
    rw [sizesFrom]
    split
    · rename_i hf
      simp only [flushAt, Bool.and_eq_true, decide_eq_true_eq] at hf
      have := ih (ind + 1) 0 (by omega)
      simp only [List.length_cons]
      omega
    · rename_i hf
      simp only [flushAt, Bool.and_eq_true, decide_eq_true_eq, not_and] at hf
      have := ih (ind + 1) (b + 1) (by omega)
      have h2 := hf (by omega)
      omega

/-- A book of `n ≥ 1` paragraphs is written in `⌈n / 500⌉` calls when every call
succeeds. -/
theorem length_sizesFrom_zero (n : Nat) (h : 1 ≤ n) :
    (sizesFrom 0 0 n).length = (n + 499) / 500 := by
  obtain ⟨m, rfl⟩ : ∃ m, n = m + 1 := ⟨n - 1, by omega⟩
  have h0 : flushAt 0 = false := by decide
  rw [sizesFrom]
  simp only [h0, Bool.false_eq_true, if_false]
  have := length_sizesFrom m (0 + 1) (0 + 1) (by omega)
  omega

/-- With a store that accepts every bulk write, `insertBookData` calls `bulk.Do`
`⌈N / 500⌉` times for a book of `N ≥ 1` paragraphs, the last call possibly on an
empty batch, which sends nothing. -/
theorem length_insertBookData (store : Store) (book : ParseBook)
    (h : ∀ hist b, store hist b = true) (hN : 1 ≤ book.paragraphs.length) :
    (insertBookData store book).length = (book.paragraphs.length + 499) / 500 := by
  have e := congrArg List.length
    (sizes_insertLoop store book.title book.author h book.paragraphs 0 [] [])
  simp only [List.length_map, List.map_nil, List.nil_append, List.length_nil] at e
  rw [insertBookData, e]
  exact length_sizesFrom_zero _ hN

/-- With a store that accepts every bulk write, a `bulk.Do` call succeeds exactly
when its batch is not empty. -/
theorem ok_insertLoop (store : Store) (t a : GoString)
    (h : ∀ hist b, store hist b = true) (ps : List GoString) :
    ∀ ind bulk calls, (∀ c ∈ calls, c.ok = !c.docs.isEmpty) →
      ∀ c ∈ insertLoop store t a ps ind bulk calls, c.ok = !c.docs.isEmpty := by
  induction ps with
  | nil =>
    intro ind bulk calls hc c hmem
    simp only [insertLoop, List.mem_append, List.mem_singleton] at hmem
    rcases hmem with h1 | h1
    · exact hc c h1
    · subst h1
      cases bulk <;> simp [bulkDo, h]
  | cons p ps ih =>
    intro ind bulk calls hc c hmem
    simp only [insertLoop, bulkDo_concat, h, if_true] at hmem
    split at hmem
    · refine ih _ _ _ ?_ c hmem
      intro d hd
      rcases List.mem_append.1 hd with h1 | h1
      · exact hc d h1
      · simp only [List.mem_singleton] at h1
        subst h1
        simp
    · exact ih _ _ _ hc c hmem

set_option maxRecDepth 100000 in
/-- C13 (the code at the failing input). With the store that accepts every
write, `insertBookData` calls `bulk.Do` twice for a book of 501 paragraphs: the
first call carries all 501 documents and succeeds; the second has an empty
batch, fails in the client and sends nothing. One bulk write is made, where
`⌈501 / 500⌉` is 2. -/
theorem C13_one_write_for_501 :
    (insertBookData acceptAll (uniformBook 501)).map (fun c => (c.docs.length, c.ok))
        = [(501, true), (0, false)]
    ∧ (bulkWrites (insertBookData acceptAll (uniformBook 501))).length = 1
    ∧ (501 + 499) / 500 = 2 := by
  have hs : (insertBookData acceptAll (uniformBook 501)).map (fun c => c.docs.length)
      = [501, 0] := by
    rw [insertBookData, sizes_insertLoop acceptAll _ _ (fun _ _ => rfl)]
    have hb : (uniformBook 501).paragraphs = List.replicate 501 (lit "p") := rfl
    rw [hb, List.length_replicate]
    decide
  have hok : ∀ c ∈ insertBookData acceptAll (uniformBook 501), c.ok = !c.docs.isEmpty :=
    ok_insertLoop acceptAll _ _ (fun _ _ => rfl) _ 0 [] [] (by simp)
  generalize insertBookData acceptAll (uniformBook 501) = calls at hs hok
  cases calls with
  | nil => simp at hs
  | cons c1 r =>
    cases r with
    | nil => simp at hs
    | cons c2 r2 =>
      cases r2 with
      | cons c3 r3 => simp at hs
      | nil =>
        simp only [List.map_cons, List.map_nil, List.cons.injEq, and_true] at hs
        obtain ⟨l1, l2⟩ := hs
        have o1 := hok c1 (by simp)
        have o2 := hok c2 (by simp)
        have d2 : c2.docs = [] := List.length_eq_zero.1 l2
        have d1 : c1.docs.isEmpty = false := by
          cases hd : c1.docs with
          | nil => rw [hd] at l1; simp at l1
          | cons x xs => rfl
        rw [d1] at o1
        rw [d2] at o2
        refine ⟨?_, ?_, by decide⟩
        · simp [l1, l2, o1, o2]
        · simp [bulkWrites, d1, d2]

/-! ## Failure of the slice, the body between the banners, the empty body -/

set_option maxRecDepth 100000 in
/-- C11 (the code at the failing inputs). On a readable file without any
banner the end offset is `-1` while the start offset is the length of the first
banner minus one, and the slice expression of line 183 panics; so it does on a
file with the start banner and no end banner, and on a file whose end banner
stands before the start offset. None of them yields a book. -/
theorem C11_slice_panics :
    endInd id (lit "A") noBannerFile = -1
    ∧ startInd id (lit "A") noBannerFile = 46
    ∧ parseBookFile id noBannerFile = .error .sliceOutOfRange
    ∧ endInd id (lit "A") noEndBannerFile = -1
    ∧ parseBookFile id noEndBannerFile = .error .sliceOutOfRange
    ∧ endInd id [] endBannerFirstFile = 0
    ∧ startInd id [] endBannerFirstFile = 45
    ∧ parseBookFile id endBannerFirstFile = .error .sliceOutOfRange := by
  refine ⟨?_, ?_, ?_, ?_, ?_, ?_, ?_, ?_⟩ <;> decide

/-- C16. For every ASCII title `T` and every content `pre ++ S ++ body ++ E ++
post`, `S` and `E` being the upper-cased first start and end banners for `T`,
in which the first occurrence of `S` is at `|pre|` and the first occurrence of
`E` at `|pre| + |S| + |body|`: the slice of line 183 is exactly `body`, and
when the header scan gives the title `T` the book returned has the paragraphs
of `body`. -/
theorem C16_body_between_banners (uni : GoString → GoString) (T pre body post : GoString)
    (hT : isASCII T = true)
    (hS : FirstOccAt
        (pre ++ ToUpper uni (startBanner1 T) ++ body ++ ToUpper uni (endBanner1 T) ++ post)
        (ToUpper uni (startBanner1 T)) pre.length)
    (hE : FirstOccAt
        (pre ++ ToUpper uni (startBanner1 T) ++ body ++ ToUpper uni (endBanner1 T) ++ post)
        (ToUpper uni (endBanner1 T))
        (pre.length + (ToUpper uni (startBanner1 T)).length + body.length)) :
    slice (pre ++ ToUpper uni (startBanner1 T) ++ body ++ ToUpper uni (endBanner1 T) ++ post)
        (startInd uni T
          (pre ++ ToUpper uni (startBanner1 T) ++ body ++ ToUpper uni (endBanner1 T) ++ post))
        (endInd uni T
          (pre ++ ToUpper uni (startBanner1 T) ++ body ++ ToUpper uni (endBanner1 T) ++ post))
      = some body
    ∧ ∀ a0, scanHeader (rawLines
          (pre ++ ToUpper uni (startBanner1 T) ++ body ++ ToUpper uni (endBanner1 T) ++ post))
          [] [] = some (T, a0) →
        parseBookFile uni
          (pre ++ ToUpper uni (startBanner1 T) ++ body ++ ToUpper uni (endBanner1 T) ++ post)
          = .ok ⟨T, authorOrDefault a0, Split body⟩ := by
  have e1 := ToUpper_ascii uni _ (isASCII_startBanner1 T hT)
  have e2 := ToUpper_ascii uni _ (isASCII_endBanner1 T hT)
  rw [e1, e2] at hS hE ⊢
  have e : pre ++ (startBanner1 T).map upperByte ++ body ++ (endBanner1 T).map upperByte ++ post
      = pre ++ ((startBanner1 T).map upperByte ++ body
          ++ ((endBanner1 T).map upperByte ++ post)) := by
    simp
  rw [e] at hS hE ⊢
  rw [List.length_map] at hE
  have hs := slice_between_banners uni T pre body post hT hS.2 hE.2
  refine ⟨hs, fun a0 h0 => ?_⟩
  simp only [parseBookFile, h0, hs]

set_option maxRecDepth 100000 in
/-- C16 on the file of `Moby Dick` with upper-case banners and the body
`Para one.`. -/
theorem C16_body_between_banners_witness :
    (isASCII (lit "Moby Dick") = true
      ∧ FirstOccAt
        (lit "Title: Moby Dick\nAuthor: Herman Melville\n"
          ++ ToUpper id (startBanner1 (lit "Moby Dick")) ++ lit "Para one."
          ++ ToUpper id (endBanner1 (lit "Moby Dick")) ++ [])
        (ToUpper id (startBanner1 (lit "Moby Dick")))
        (lit "Title: Moby Dick\nAuthor: Herman Melville\n").length
      ∧ FirstOccAt
        (lit "Title: Moby Dick\nAuthor: Herman Melville\n"
          ++ ToUpper id (startBanner1 (lit "Moby Dick")) ++ lit "Para one."
          ++ ToUpper id (endBanner1 (lit "Moby Dick")) ++ [])
        (ToUpper id (endBanner1 (lit "Moby Dick")))
        ((lit "Title: Moby Dick\nAuthor: Herman Melville\n").length
          + (ToUpper id (startBanner1 (lit "Moby Dick"))).length
          + (lit "Para one.").length))
    ∧ slice (lit "Title: Moby Dick\nAuthor: Herman Melville\n"
          ++ ToUpper id (startBanner1 (lit "Moby Dick")) ++ lit "Para one."
          ++ ToUpper id (endBanner1 (lit "Moby Dick")) ++ [])
        (startInd id (lit "Moby Dick")
          (lit "Title: Moby Dick\nAuthor: Herman Melville\n"
            ++ ToUpper id (startBanner1 (lit "Moby Dick")) ++ lit "Para one."
            ++ ToUpper id (endBanner1 (lit "Moby Dick")) ++ []))
        (endInd id (lit "Moby Dick")
          (lit "Title: Moby Dick\nAuthor: Herman Melville\n"
            ++ ToUpper id (startBanner1 (lit "Moby Dick")) ++ lit "Para one."
            ++ ToUpper id (endBanner1 (lit "Moby Dick")) ++ []))
      = some (lit "Para one.") :=
  have h0 : isASCII (lit "Moby Dick") = true := by decide
  have h1 := firstOccAt_of_Index
    (lit "Title: Moby Dick\nAuthor: Herman Melville\n"
      ++ ToUpper id (startBanner1 (lit "Moby Dick")) ++ lit "Para one."
      ++ ToUpper id (endBanner1 (lit "Moby Dick")) ++ [])
    (ToUpper id (startBanner1 (lit "Moby Dick")))
    (lit "Title: Moby Dick\nAuthor: Herman Melville\n").length (by decide)
  have h2 := firstOccAt_of_Index
    (lit "Title: Moby Dick\nAuthor: Herman Melville\n"
      ++ ToUpper id (startBanner1 (lit "Moby Dick")) ++ lit "Para one."
      ++ ToUpper id (endBanner1 (lit "Moby Dick")) ++ [])
    (ToUpper id (endBanner1 (lit "Moby Dick")))
    ((lit "Title: Moby Dick\nAuthor: Herman Melville\n").length
      + (ToUpper id (startBanner1 (lit "Moby Dick"))).length
      + (lit "Para one.").length) (by decide)
  ⟨⟨h0, h1, h2⟩,
    (C16_body_between_banners id (lit "Moby Dick")
      (lit "Title: Moby Dick\nAuthor: Herman Melville\n") (lit "Para one.") [] h0 h1 h2).1⟩

theorem splitAux_ne_nil (s : GoString) :
    ∀ (skip : Nat) (cur sep : GoString), splitAux s skip cur sep ≠ [] := by
  induction s with
  | nil => intro skip cur sep; simp [splitAux]
  | cons c cs ih =>
    intro skip cur sep
    cases skip with
    | succ k => rw [splitAux]; exact ih _ _ _
    | zero =>
      rw [splitAux]
      split
      · simp
      · exact ih _ _ _

/-- The split never returns an empty list. -/
theorem Split_ne_nil (s : GoString) : Split s ≠ [] := by
  simp only [Split, splitParts, ne_eq, List.map_eq_nil_iff]
  exact splitAux_ne_nil s 0 [] []

/-- C18. Whenever `parseBookFile` returns a book, its paragraph list is not
empty; when moreover the body is empty (the start offset equals the end
offset), the list is exactly one empty paragraph, and `insertBookData` then
makes a single bulk call with a single document, of location 0 and empty text,
whatever the store does. -/
theorem C18_empty_body (uni : GoString → GoString) (data : GoString) (b : ParseBook)
    (h : parseBookFile uni data = .ok b) :
    b.paragraphs ≠ []
    ∧ (startInd uni b.title data = endInd uni b.title data →
        b.paragraphs = [[]]
        ∧ ∀ store : Store, (insertBookData store b).map BulkCall.docs
            = [[{ Location := 0, Text := [], Title := b.title, Author := b.author }]]) := by
  unfold parseBookFile at h
  cases hs : scanHeader (rawLines data) [] [] with
  | none => rw [hs] at h; simp at h
  | some r =>
    obtain ⟨t, a0⟩ := r
    rw [hs] at h
    simp only at h
    cases hsl : slice data (startInd uni t data) (endInd uni t data) with
    | none => rw [hsl] at h; simp at h
    | some sl =>
      rw [hsl] at h
      simp only [Except.ok.injEq] at h
      subst h
      refine ⟨Split_ne_nil sl, fun heq => ?_⟩
      simp only at heq
      have hsl0 : sl = [] := by
        unfold slice at hsl
        split at hsl
        · simp only [Option.some.injEq] at hsl
          rw [← hsl, heq]
          simp
        · simp at hsl
      subst hsl0
      refine ⟨rfl, fun store => ?_⟩
      rfl

set_option maxRecDepth 100000 in
/-- C18 on `emptyBodyFile`: the book returned has the single empty paragraph and
is written as one document. -/
theorem C18_empty_body_witness :
    parseBookFile id emptyBodyFile = .ok ⟨lit "A", lit "B", [[]]⟩
    ∧ startInd id (lit "A") emptyBodyFile = endInd id (lit "A") emptyBodyFile
    ∧ (insertBookData acceptAll ⟨lit "A", lit "B", [[]]⟩).map BulkCall.docs
        = [[{ Location := 0, Text := [], Title := lit "A", Author := lit "B" }]] :=
  have hp : parseBookFile id emptyBodyFile = .ok ⟨lit "A", lit "B", [[]]⟩ := by decide
  have he : startInd id (lit "A") emptyBodyFile = endInd id (lit "A") emptyBodyFile := by
    decide
  ⟨hp, he, ((C18_empty_body id emptyBodyFile _ hp).2 he).2 acceptAll⟩

/-! ## Paragraphs hold no separator -/

theorem takeWhile_append_all (f : Nat → Bool) (a : GoString) :
    ∀ r : GoString, (∀ c ∈ a, f c = true) → (a ++ r).takeWhile f = a ++ r.takeWhile f := by
  induction a with
  | nil => intro r _; rfl
  | cons c a ih =>
    intro r h
    have hc : f c = true := h c (List.mem_cons_self _ _)
    simp only [List.cons_append, List.takeWhile_cons, hc, if_true]
    rw [ih r (fun d hd => h d (List.mem_cons_of_mem _ hd))]

theorem lastNewline_ne_none (l : GoString) (h : 10 ∈ l) : lastNewline l ≠ none := by
  induction l with
  | nil => simp at h
  | cons c cs ih =>
    rw [lastNewline]
    cases hx : lastNewline cs with
    | some i => simp
    | none =>
      simp only
      rcases List.mem_cons.1 h with h1 | h1
      · simp [← h1]
      · exact absurd hx (ih h1)

/-- A match begins wherever a separator stands, whatever follows it. -/
theorem matchLen_ne_none_of_separator (sp rest : GoString) (hsp : IsSeparator sp) :
    matchLen (sp ++ rest) ≠ none := by
  obtain ⟨w, hw, hall, rfl⟩ := hsp
  cases w with
  | nil => exact absurd rfl hw
  | cons w0 w =>
    have h0 : isSpace w0 = true := hall w0 (List.mem_cons_self _ _)
    have hrun : ∀ c ∈ w ++ [10], isSpace c = true := by
      intro c hc
      rcases List.mem_append.1 hc with h | h
      · exact hall c (List.mem_cons_of_mem _ h)
      · simp only [List.mem_singleton] at h; rw [h]; exact isSpace_ten
    have e : (10 :: (w0 :: w ++ [10])) ++ rest = 10 :: w0 :: ((w ++ [10]) ++ rest) := by simp
    rw [e, matchLen]
    simp only [h0, and_self, if_true]
    rw [takeWhile_append_all isSpace _ _ hrun]
    have hm : lastNewline (w ++ [10] ++ List.takeWhile isSpace rest) ≠ none :=
      lastNewline_ne_none _ (by simp)
    cases hx : lastNewline (w ++ [10] ++ List.takeWhile isSpace rest) with
    | none => exact absurd hx hm
    | some i => simp

/-- No separator stands inside a piece of text at none of whose positions a
match begins. -/
theorem no_separator_of_no_match (cur s : GoString)
    (h : ∀ a t, cur.reverse = a ++ t → t ≠ [] → matchLen (t ++ s) = none)
    (sp : GoString) (hsp : IsSeparator sp) : ¬ Occurs cur.reverse sp := by
  rintro ⟨i, pre, post, e, _⟩
  have hne : sp ++ post ≠ [] := by
    obtain ⟨w, _, _, rfl⟩ := hsp
    simp
  have := h pre (sp ++ post) (by rw [e]; simp) hne
  rw [List.append_assoc] at this
  exact matchLen_ne_none_of_separator sp (post ++ s) hsp this

/-- Every piece returned by `splitAux` is free of separators, provided no match
begins inside the piece in progress. -/
theorem splitAux_no_separator (s : GoString) :
    ∀ (skip : Nat) (cur sep : GoString), (0 < skip → cur = []) →
      (∀ a t, cur.reverse = a ++ t → t ≠ [] → matchLen (t ++ s) = none) →
      ∀ x ∈ splitAux s skip cur sep, ∀ sp, IsSeparator sp → ¬ Occurs x.2 sp := by
  have hnil : ∀ s1 : GoString, ∀ a t : GoString, ([] : GoString).reverse = a ++ t → t ≠ [] →
      matchLen (t ++ s1) = none := by
    intro s1 a t e hne
    have : t = [] := by
      have := congrArg List.length e
      simp only [List.reverse_nil, List.length_nil, List.length_append] at this
      exact List.length_eq_zero.1 (by omega)
    exact absurd this hne
  induction s with
  | nil =>
    intro skip cur sep _ hinv x hx sp hsp
    simp only [splitAux, List.mem_singleton] at hx
    subst hx
    exact no_separator_of_no_match cur [] hinv sp hsp
  | cons c cs ih =>
    intro skip cur sep hcur hinv x hx sp hsp
    cases skip with
    | succ k =>
      have hc : cur = [] := hcur (Nat.succ_pos k)
      subst hc
      rw [splitAux] at hx
      exact ih k [] (c :: sep) (fun _ => rfl) (hnil cs) x hx sp hsp
    | zero =>
      rw [splitAux] at hx
      cases hm : matchLen (c :: cs) with
      | some n =>
        rw [hm] at hx
        simp only at hx
        rcases List.mem_cons.1 hx with h1 | h1
        · subst h1
          exact no_separator_of_no_match cur (c :: cs) hinv sp hsp
        · exact ih (n - 1) [] [c] (fun _ => rfl) (hnil cs) x h1 sp hsp
      | none =>
        rw [hm] at hx
        simp only at hx
        refine ih 0 (c :: cur) sep (fun h => absurd h (Nat.lt_irrefl 0)) ?_ x hx sp hsp
        intro a t e hne
        rcases List.eq_nil_or_concat t with h0 | ⟨t1, d, h0⟩
        · exact absurd h0 hne
        · subst h0
          have e1 : cur.reverse ++ [c] = (a ++ t1) ++ [d] := by
            simpa using e
          have e2 := List.append_inj' e1 rfl
          have hd : d = c := by
            have := e2.2
            simp at this
            exact this.symm
          subst hd
          rw [List.concat_eq_append, List.append_assoc]
          by_cases ht1 : t1 = []
          · subst ht1
            exact hm
          · exact hinv a t1 e2.1 ht1

set_option maxRecDepth 100000 in
/-- C17 fails on the scenario body: `Para one.`, an empty line, `Para two.` is
returned as one paragraph, and that paragraph contains, at offset 9, a newline
followed by no whitespace and another newline. -/
theorem C17_paragraph_with_empty_line :
    Split (lit "Para one.\n\nPara two.") = [lit "Para one.\n\nPara two."]
    ∧ Index (lit "Para one.\n\nPara two.") [10, 10] = 9 := by
  constructor <;> decide

/-- C17, amended. No paragraph returned by splitting a body on the pattern
contains a match of the pattern: no paragraph has a substring made of a
newline, then one or more whitespace bytes, then another newline. -/
theorem C17_no_separator_in_paragraph (s p sp : GoString)
    (hp : p ∈ Split s) (hsp : IsSeparator sp) : ¬ Occurs p sp := by
  simp only [Split, splitParts, List.mem_map] at hp
  obtain ⟨x, hx, rfl⟩ := hp
  refine splitAux_no_separator s 0 [] [] (fun h => absurd h (Nat.lt_irrefl 0)) ?_ x hx sp hsp
  intro a t e hne
  have : t = [] := by
    have := congrArg List.length e
    simp only [List.reverse_nil, List.length_nil, List.length_append] at this
    exact List.length_eq_zero.1 (by omega)
  exact absurd this hne

set_option maxRecDepth 100000 in
/-- C17, amended, on a body of two paragraphs, the second of which holds an
empty line: it holds no separator with a space in it. -/
theorem C17_no_separator_in_paragraph_witness :
    (lit "b\n\nc" ∈ Split (lit "a\n \nb\n\nc") ∧ IsSeparator (lit "\n \n"))
    ∧ ¬ Occurs (lit "b\n\nc") (lit "\n \n") :=
  have h1 : lit "b\n\nc" ∈ Split (lit "a\n \nb\n\nc") := by decide
  have h2 : IsSeparator (lit "\n \n") := ⟨[32], by decide, by decide, by decide⟩
  ⟨⟨h1, h2⟩, C17_no_separator_in_paragraph _ _ _ h1 h2⟩

/-! ## The header scan in full -/

theorem titleAfter_append (l1 : List GoString) :
    ∀ (t : GoString) (l2 : List GoString),
      titleAfter t (l1 ++ l2) = titleAfter (titleAfter t l1) l2 := by
  induction l1 with
  | nil => intro t l2; rfl
  | cons x l1 ih => intro t l2; rw [List.cons_append, titleAfter, titleAfter, ih]

/-- Lines that are no `Title:` lines leave the title as it is. -/
theorem titleAfter_none (ls : List GoString) :
    ∀ t : GoString, (∀ l ∈ ls, isTitleLine l = false) → titleAfter t ls = t := by
  induction ls with
  | nil => intro t _; rfl
  | cons x ls ih =>
    intro t h
    have hx : isTitleLine x = false := h x (List.mem_cons_self _ _)
    simp only [titleAfter, hx, Bool.false_eq_true, if_false]
    exact ih t (fun l hl => h l (List.mem_cons_of_mem _ hl))

/-- The title is the text after the 7th byte of the last `Title:` line. -/
theorem titleAfter_last (u v : List GoString) (tl t : GoString)
    (htl : isTitleLine tl = true) (hv : ∀ l ∈ v, isTitleLine l = false) :
    titleAfter t (u ++ tl :: v) = tl.drop 7 := by
  rw [titleAfter_append, titleAfter]
  simp only [htl, if_true]
  exact titleAfter_none v _ hv

/-- The scan over lines none of which is an `Author:` line, followed by an
`Author:` line: if it returns, it returns the title after these lines and the
text after the 8th byte of the `Author:` line, whatever lines come after. -/
theorem scanHeader_stops (pre : List GoString) :
    ∀ (a : GoString) (post : List GoString) (title author : GoString),
      (∀ l ∈ pre, isAuthorLine (dropCR l) = false) → isAuthorLine (dropCR a) = true →
      (scanHeader (pre ++ a :: post) title author = none
        ∨ scanHeader (pre ++ a :: post) title author
            = some (titleAfter title ((pre ++ [a]).map dropCR), (dropCR a).drop 8))
      ∧ ((∀ l ∈ pre ++ [a], l.length < maxScanTokenSize) →
          scanHeader (pre ++ a :: post) title author
            = some (titleAfter title ((pre ++ [a]).map dropCR), (dropCR a).drop 8)) := by
  induction pre with
  | nil =>
    intro a post title author _ ha
    simp only [isAuthorLine, Bool.and_eq_true, decide_eq_true_eq] at ha
    have key : ¬ maxScanTokenSize ≤ a.length →
        scanHeader ([] ++ a :: post) title author
          = some (titleAfter title (([] ++ [a]).map dropCR), (dropCR a).drop 8) := by
      intro hlen
      simp only [List.nil_append, scanHeader, hlen, if_false, ha, and_self, if_true,
        List.map_cons, List.map_nil, titleAfter, isTitleLine, Bool.and_eq_true,
        decide_eq_true_eq]
    constructor
    · by_cases hlen : maxScanTokenSize ≤ a.length
      · left; simp only [List.nil_append, scanHeader, hlen, if_true]
      · right; exact key hlen
    · intro h
      exact key (Nat.not_le.2 (h a (by simp)))
  | cons l pre ih =>
    intro a post title author hpre ha
    have hl : isAuthorLine (dropCR l) = false := hpre l (List.mem_cons_self _ _)
    have hl1 : ¬ ((dropCR l).length > 7 ∧ hasPrefixStr (dropCR l) (lit "Author:") = true) := by
      intro h
      simp [isAuthorLine, h.1, h.2] at hl
    obtain ⟨h1, h2⟩ := ih a post
      (if isTitleLine (dropCR l) then (dropCR l).drop 7 else title) author
      (fun x hx => hpre x (List.mem_cons_of_mem _ hx)) ha
    have key : ¬ maxScanTokenSize ≤ l.length →
        scanHeader (l :: pre ++ a :: post) title author
          = scanHeader (pre ++ a :: post)
              (if isTitleLine (dropCR l) then (dropCR l).drop 7 else title) author := by
      intro hlen
      rw [List.cons_append, scanHeader]
      simp only [hlen, if_false, hl1, isTitleLine, Bool.and_eq_true, decide_eq_true_eq]
    have et : titleAfter title ((l :: pre ++ [a]).map dropCR)
        = titleAfter (if isTitleLine (dropCR l) then (dropCR l).drop 7 else title)
            ((pre ++ [a]).map dropCR) := by
      rw [List.cons_append, List.map_cons, titleAfter]
    constructor
    · by_cases hlen : maxScanTokenSize ≤ l.length
      · left; rw [List.cons_append, scanHeader]; simp only [hlen, if_true]
      · rw [key hlen, et]; exact h1
    · intro h
      rw [key (Nat.not_le.2 (h l (by simp))), et]
      exact h2 (fun x hx => h x (by simp at hx ⊢; tauto))

/-- Lines none of which is an `Author:` line leave the author as it is. -/
theorem scanHeader_no_author_line (lines : List GoString) :
    ∀ (title author : GoString) (r : GoString × GoString),
      (∀ l ∈ lines, isAuthorLine (dropCR l) = false) →
      scanHeader lines title author = some r → r.2 = author := by
  induction lines with
  | nil =>
    intro title author r _ h
    simp only [scanHeader, Option.some.injEq] at h
    rw [← h]
  | cons raw rest ih =>
    intro title author r hA h
    have hl : isAuthorLine (dropCR raw) = false := hA raw (List.mem_cons_self _ _)
    have hl1 : ¬ ((dropCR raw).length > 7
        ∧ hasPrefixStr (dropCR raw) (lit "Author:") = true) := by
      intro h
      simp [isAuthorLine, h.1, h.2] at hl
    rw [scanHeader] at h
    simp only [hl1, if_false] at h
    split at h
    · simp at h
    · exact ih _ author r (fun l hl => hA l (List.mem_cons_of_mem _ hl)) h

/-- C15. Header scanning stops at the first line that begins with `Author:` and
is longer than 7 bytes. If the lines of the file are `pre`, then that line `a`,
then `post`, every book returned has as author the text of `a` after its 8th
byte (`Unknown Author` if that text is empty) and as title the text after the
7th byte of the last line of `pre` that begins with `Title:` and is longer than
6 bytes (the empty title if there is none); the lines of `post` do not change
the result of the scan, which does return when no line up to `a` reaches the
token limit of the scanner. If the file has no such `Author:` line, the author
is `Unknown Author`. -/
theorem C15_header_scan (uni : GoString → GoString) (data : GoString) :
    (∀ (pre : List GoString) (a : GoString) (post : List GoString),
      rawLines data = pre ++ a :: post →
      (∀ l ∈ pre, isAuthorLine (dropCR l) = false) →
      isAuthorLine (dropCR a) = true →
      (∀ b, parseBookFile uni data = .ok b →
          b.author = authorOrDefault ((dropCR a).drop 8)
          ∧ (∀ u tl v, pre ++ [a] = u ++ tl :: v → isTitleLine (dropCR tl) = true →
              (∀ l ∈ v, isTitleLine (dropCR l) = false) → b.title = (dropCR tl).drop 7)
          ∧ ((∀ l ∈ pre ++ [a], isTitleLine (dropCR l) = false) → b.title = []))
      ∧ ((∀ l ∈ pre ++ [a], l.length < maxScanTokenSize) →
          (scanHeader (rawLines data) [] []).isSome = true
          ∧ ∀ post1, scanHeader (pre ++ a :: post1) [] [] = scanHeader (rawLines data) [] []))
    ∧ ((∀ l ∈ rawLines data, isAuthorLine (dropCR l) = false) →
        ∀ b, parseBookFile uni data = .ok b → b.author = lit "Unknown Author") := by
  have hparse : ∀ b, parseBookFile uni data = .ok b →
      ∃ t a0, scanHeader (rawLines data) [] [] = some (t, a0)
        ∧ b.title = t ∧ b.author = authorOrDefault a0 := by
    intro b hb
    unfold parseBookFile at hb
    cases hs : scanHeader (rawLines data) [] [] with
    | none => rw [hs] at hb; simp at hb
    | some r =>
      obtain ⟨t, a0⟩ := r
      rw [hs] at hb
      simp only at hb
      cases hsl : slice data (startInd uni t data) (endInd uni t data) with
      | none => rw [hsl] at hb; simp at hb
      | some sl =>
        rw [hsl] at hb
        simp only [Except.ok.injEq] at hb
        subst hb
        exact ⟨t, a0, rfl, rfl, rfl⟩
  constructor
  · intro pre a post hlines hpre ha
    obtain ⟨h1, h2⟩ := scanHeader_stops pre a post [] [] hpre ha
    constructor
    · intro b hb
      obtain ⟨t, a0, hs, ht, hau⟩ := hparse b hb
      rw [hlines] at hs
      have hr : t = titleAfter [] ((pre ++ [a]).map dropCR) ∧ a0 = (dropCR a).drop 8 := by
        rcases h1 with h | h
        · rw [h] at hs; simp at hs
        · rw [h] at hs
          simp only [Option.some.injEq, Prod.mk.injEq] at hs
          exact ⟨hs.1.symm, hs.2.symm⟩
      refine ⟨by rw [hau, hr.2], ?_, ?_⟩
      · intro u tl v e htl hv
        rw [ht, hr.1, e, List.map_append, List.map_cons]
        exact titleAfter_last _ _ _ _ htl (by simpa using hv)
      · intro hno
        rw [ht, hr.1]
        refine titleAfter_none _ _ (fun l hl => ?_)
        obtain ⟨x, hx, rfl⟩ := List.mem_map.1 hl
        exact hno x hx
    · intro hlen
      rw [hlines]
      refine ⟨by rw [h2 hlen]; rfl, fun post1 => ?_⟩
      rw [h2 hlen, (scanHeader_stops pre a post1 [] [] hpre ha).2 hlen]
  · intro hno b hb
    obtain ⟨t, a0, hs, _, hau⟩ := hparse b hb
    have := scanHeader_no_author_line _ _ _ _ hno hs
    simp only at this
    rw [hau, this]
    rfl

set_option maxRecDepth 100000 in
/-- C15 on `twoTitlesFile`: the title is that of the second `Title:` line, the
author that of the first `Author:` line, and the header lines after it are not
looked at. -/
theorem C15_header_scan_witness :
    (rawLines twoTitlesFile
        = [lit "Title: First", lit "Note", lit "Title: Second"] ++ lit "Author: B"
          :: [lit "Title: Third", lit "Author: C",
              lit ("*** START OF THIS PROJECT GUTENBERG EBOOK SECOND ***"
                ++ "Some text."
                ++ "*** END OF THIS PROJECT GUTENBERG EBOOK SECOND ***")]
      ∧ (∀ l ∈ [lit "Title: First", lit "Note", lit "Title: Second"],
          isAuthorLine (dropCR l) = false)
      ∧ isAuthorLine (dropCR (lit "Author: B")) = true)
    ∧ parseBookFile id twoTitlesFile = .ok ⟨lit "Second", lit "B", [lit "Some text."]⟩
    ∧ (⟨lit "Second", lit "B", [lit "Some text."]⟩ : ParseBook).author
        = authorOrDefault ((dropCR (lit "Author: B")).drop 8) :=
  have h1 : rawLines twoTitlesFile
      = [lit "Title: First", lit "Note", lit "Title: Second"] ++ lit "Author: B"
        :: [lit "Title: Third", lit "Author: C",
            lit ("*** START OF THIS PROJECT GUTENBERG EBOOK SECOND ***"
              ++ "Some text."
              ++ "*** END OF THIS PROJECT GUTENBERG EBOOK SECOND ***")] := by decide
  have h2 : ∀ l ∈ [lit "Title: First", lit "Note", lit "Title: Second"],
      isAuthorLine (dropCR l) = false := by decide
  have h3 : isAuthorLine (dropCR (lit "Author: B")) = true := by decide
  have hp : parseBookFile id twoTitlesFile
      = .ok ⟨lit "Second", lit "B", [lit "Some text."]⟩ := by decide
  ⟨⟨h1, h2, h3⟩, hp,
    ((((C15_header_scan id twoTitlesFile).1 _ _ _ h1 h2 h3).1) _ hp).1⟩

/-- C19. The slice expressions of the header scan are always in bounds: for
every line `txt` the loop body runs without panic, `txt[7:]` being evaluated
only when `txt` has more than 6 bytes and `txt[8:]` only when it has more than
7; the scan (`scanHeader`) is this loop body repeated over the lines; and a line
that is exactly `Title:` or exactly `Author:` changes nothing. -/
theorem C19_header_slices_in_bounds (txt title author raw : GoString)
    (rest : List GoString) :
    headerStep txt title author
        = some (if isTitleLine txt then txt.drop 7 else title,
                if isAuthorLine txt then txt.drop 8 else author,
                isAuthorLine txt)
    ∧ (if isTitleLine txt then sliceFrom txt 7 else some title)
        = some (if isTitleLine txt then txt.drop 7 else title)
    ∧ (if isAuthorLine txt then sliceFrom txt 8 else some author)
        = some (if isAuthorLine txt then txt.drop 8 else author)
    ∧ scanHeader (raw :: rest) title author
        = (if maxScanTokenSize ≤ raw.length then none
           else match headerStep (dropCR raw) title author with
             | none => none
             | some (title1, author1, true) => some (title1, author1)
             | some (title1, author1, false) => scanHeader rest title1 author1)
    ∧ headerStep (lit "Title:") title author = some (title, author, false)
    ∧ headerStep (lit "Author:") title author = some (title, author, false) := by
  have step : ∀ x : GoString, headerStep x title author
      = some (if isTitleLine x then x.drop 7 else title,
              if isAuthorLine x then x.drop 8 else author,
              isAuthorLine x) := by
    intro x
    by_cases hT : x.length > 6 ∧ hasPrefixStr x (lit "Title:") = true
    · have h7 : 7 ≤ x.length := hT.1
      have hT1 : isTitleLine x = true := by simp [isTitleLine, hT.1, hT.2]
      by_cases hA : x.length > 7 ∧ hasPrefixStr x (lit "Author:") = true
      · have h8 : 8 ≤ x.length := hA.1
        have hA1 : isAuthorLine x = true := by simp [isAuthorLine, hA.1, hA.2]
        simp only [headerStep, hT, and_self, if_true, sliceFrom, h7, hA, h8, hT1, hA1]
      · have hA1 : isAuthorLine x = false := by
          cases hx : isAuthorLine x with
          | false => rfl
          | true =>
            simp only [isAuthorLine, Bool.and_eq_true, decide_eq_true_eq] at hx
            exact absurd hx hA
        simp only [headerStep, hT, and_self, if_true, sliceFrom, h7, hA, if_false, hT1, hA1,
          Bool.false_eq_true]
    · have hT1 : isTitleLine x = false := by
        cases hx : isTitleLine x with
        | false => rfl
        | true =>
          simp only [isTitleLine, Bool.and_eq_true, decide_eq_true_eq] at hx
          exact absurd hx hT
      by_cases hA : x.length > 7 ∧ hasPrefixStr x (lit "Author:") = true
      · have h8 : 8 ≤ x.length := hA.1
        have hA1 : isAuthorLine x = true := by simp [isAuthorLine, hA.1, hA.2]
        simp only [headerStep, hT, if_false, sliceFrom, hA, and_self, if_true, h8, hT1, hA1,
          Bool.false_eq_true]
      · have hA1 : isAuthorLine x = false := by
          cases hx : isAuthorLine x with
          | false => rfl
          | true =>
            simp only [isAuthorLine, Bool.and_eq_true, decide_eq_true_eq] at hx
            exact absurd hx hA
        simp only [headerStep, hT, if_false, hA, hT1, hA1, Bool.false_eq_true]
  have t1 : isTitleLine (lit "Title:") = false := by decide
  have t2 : isAuthorLine (lit "Title:") = false := by decide
  have a1 : isTitleLine (lit "Author:") = false := by decide
  have a2 : isAuthorLine (lit "Author:") = false := by decide
  refine ⟨step txt, ?_, ?_, ?_, by rw [step, t1, t2]; rfl, by rw [step, a1, a2]; rfl⟩
  · cases hx : isTitleLine txt with
    | false => simp
    | true =>
      simp only [isTitleLine, Bool.and_eq_true, decide_eq_true_eq] at hx
      have h7 : 7 ≤ txt.length := hx.1
      simp [sliceFrom, h7]
  · cases hx : isAuthorLine txt with
    | false => simp
    | true =>
      simp only [isAuthorLine, Bool.and_eq_true, decide_eq_true_eq] at hx
      have h8 : 8 ≤ txt.length := hx.1
      simp [sliceFrom, h8]
  · rw [scanHeader, step]
    by_cases hlen : maxScanTokenSize ≤ raw.length
    · simp only [hlen, if_true]
    · simp only [hlen, if_false]
      cases hx : isAuthorLine (dropCR raw) with
      | true =>
        have hx1 := hx
        simp only [isAuthorLine, Bool.and_eq_true, decide_eq_true_eq] at hx1
        simp only [hx1, and_self, if_true, isTitleLine, Bool.and_eq_true, decide_eq_true_eq]
      | false =>
        have hA : ¬ ((dropCR raw).length > 7
            ∧ hasPrefixStr (dropCR raw) (lit "Author:") = true) := by
          intro h
          simp [isAuthorLine, h.1, h.2] at hx
        simp only [hA, if_false, isTitleLine, Bool.and_eq_true, decide_eq_true_eq,
          Bool.false_eq_true]

/-! ## Properties of `resetIndices` and `readAndInsertBooks` -/

/-- When no administrative operation fails for an outside reason,
`resetIndices` succeeds and leaves the index `library` with the body `MAPPINGS`
and without documents, the other indices being as before. -/
theorem resetIndices_ok (f : AdminFaults) (c : Cluster)
    (hE : f.existsFails = false) (hD : f.deleteFails = false)
    (hC : f.createFails = false) :
    resetIndices f c
      = .ok (fun n => if n = INDEX then some ⟨MAPPINGS, []⟩ else c n) := by
  have e2 : ∀ c1 : Cluster, c1 INDEX = none →
      esCreateIndex f c1 INDEX MAPPINGS
        = .ok (fun n => if n = INDEX then some ⟨MAPPINGS, []⟩ else c1 n) := by
    intro c1 h
    simp [esCreateIndex, hC, h]
  cases hx : (c INDEX).isSome with
  | true =>
    have e1 : esDeleteIndex f c INDEX = .ok (fun n => if n = INDEX then none else c n) := by
      simp [esDeleteIndex, hD, hx]
    simp only [resetIndices, esIndexExists, hE, Bool.false_eq_true, if_false, hx, if_true, e1]
    rw [e2 _ (by simp)]
    congr 1
    funext n
    by_cases hn : n = INDEX
    · simp [hn]
    · simp [hn]
  | false =>
    have h0 : c INDEX = none := by
      cases hc : c INDEX with
      | none => rfl
      | some v => rw [hc] at hx; simp at hx
    simp only [resetIndices, esIndexExists, hE, Bool.false_eq_true, if_false, hx]
    exact e2 c h0

/-- C12. For every prior state of the store, when its administrative operations
succeed, `resetIndices` leaves the index `library` existing with the body
`MAPPINGS` and no documents, every other index being as before; and running
`resetIndices` again on the resulting state gives that same state. -/
theorem C12_reset_idempotent (f : AdminFaults) (c : Cluster)
    (hE : f.existsFails = false) (hD : f.deleteFails = false)
    (hC : f.createFails = false) :
    ∃ c1, resetIndices f c = .ok c1
      ∧ (c1 INDEX).map IndexState.body = some MAPPINGS
      ∧ (c1 INDEX).map IndexState.docs = some []
      ∧ (∀ n, n ≠ INDEX → c1 n = c n)
      ∧ resetIndices f c1 = .ok c1 := by
  refine ⟨_, resetIndices_ok f c hE hD hC, by simp, by simp, ?_, ?_⟩
  · intro n hn
    simp [hn]
  · rw [resetIndices_ok f _ hE hD hC]
    congr 1
    funext n
    by_cases hn : n = INDEX
    · simp [hn]
    · simp [hn]

/-- C12 on a store in which `library` exists with another body and one
document. -/
theorem C12_reset_idempotent_witness :
    (noFaults.existsFails = false ∧ noFaults.deleteFails = false
      ∧ noFaults.createFails = false)
    ∧ ∃ c1, resetIndices noFaults staleCluster = .ok c1
      ∧ (c1 INDEX).map IndexState.body = some MAPPINGS
      ∧ (c1 INDEX).map IndexState.docs = some []
      ∧ (∀ n, n ≠ INDEX → c1 n = staleCluster n)
      ∧ resetIndices noFaults c1 = .ok c1 :=
  ⟨⟨rfl, rfl, rfl⟩, C12_reset_idempotent noFaults staleCluster rfl rfl rfl⟩

theorem histOf_concat (acc : List Loaded) (x : Loaded) :
    histOf (acc ++ [x]) = histOf acc ++ (bulkWrites x.calls).map BulkCall.docs := by
  simp [histOf]

/-- Over entries whose text files all parse, the loop parses each text file and
hands its book to `insertBookData`, in listing order and whatever the store
answers to the bulk calls, and goes on with the entries that follow. -/
theorem loadFiles_append (uni : GoString → GoString) (store : Store) (pre : List DirEntry) :
    ∀ (rest : List DirEntry) (acc : List Loaded),
      (∀ e ∈ pre, hasSuffixStr e.name (lit ".txt") = true →
        ∃ data book, e.content = some data ∧ parseBookFile uni data = .ok book) →
      (∀ p x q, acc = p ++ x :: q →
        x.calls = insertBookData (fun h b => store (histOf p ++ h) b) x.book) →
      ∃ acc1,
        loadFiles uni store (pre ++ rest) (histOf acc) acc
          = loadFiles uni store rest (histOf acc1) acc1
        ∧ acc1.map (fun x => (x.name, x.book))
            = acc.map (fun x => (x.name, x.book)) ++ parsedBooks uni pre
        ∧ (∀ p x q, acc1 = p ++ x :: q →
            x.calls = insertBookData (fun h b => store (histOf p ++ h) b) x.book) := by
  induction pre with
  | nil => intro rest acc _ hacc; exact ⟨acc, rfl, by simp [parsedBooks], hacc⟩
  | cons e pre ih =>
    intro rest acc h hacc
    have hrest : ∀ x ∈ pre, hasSuffixStr x.name (lit ".txt") = true →
        ∃ data book, x.content = some data ∧ parseBookFile uni data = .ok book :=
      fun x hx => h x (List.mem_cons_of_mem _ hx)
    cases hs : hasSuffixStr e.name (lit ".txt") with
    | false =>
      obtain ⟨acc1, e1, e2, e3⟩ := ih rest acc hrest hacc
      refine ⟨acc1, ?_, ?_, e3⟩
      · rw [List.cons_append, loadFiles]
        simp only [hs, Bool.false_eq_true, if_false]
        exact e1
      · rw [e2, parsedBooks]
        simp only [hs, Bool.false_eq_true, if_false]
    | true =>
      obtain ⟨data, book, hc, hp⟩ := h e (List.mem_cons_self _ _) hs
      have hacc1 : ∀ p x q,
          acc ++ [⟨e.name, book, insertBookData (fun h b => store (histOf acc ++ h) b) book⟩]
            = p ++ x :: q →
          x.calls = insertBookData (fun h b => store (histOf p ++ h) b) x.book := by
        intro p x q hq
        rcases List.eq_nil_or_concat q with h0 | ⟨q1, y, h0⟩
        · subst h0
          have := List.append_inj' hq rfl
          obtain ⟨hp1, hx1⟩ := this
          simp only [List.cons.injEq, and_true] at hx1
          rw [← hx1, ← hp1]
        · subst h0
          have e0 : acc ++ [⟨e.name, book,
                insertBookData (fun h b => store (histOf acc ++ h) b) book⟩]
              = (p ++ x :: q1) ++ [y] := by
            rw [hq, List.concat_eq_append]
            simp
          exact hacc p x q1 (List.append_inj' e0 rfl).1
      obtain ⟨acc1, e1, e2, e3⟩ := ih rest
        (acc ++ [⟨e.name, book, insertBookData (fun h b => store (histOf acc ++ h) b) book⟩])
        hrest hacc1
      refine ⟨acc1, ?_, ?_, e3⟩
      · rw [List.cons_append, loadFiles]
        simp only [hs, if_true, hc, hp]
        rw [histOf_concat] at e1
        exact e1
      · rw [e2, parsedBooks]
        simp only [hs, if_true, hc, hp]
        simp

set_option maxRecDepth 100000 in
/-- C14 fails on `unreadableFirst`: the first text file cannot be opened, which
ends the run at line 129, and the second text file, which parses, is neither
parsed nor loaded. -/
theorem C14_unreadable_file_ends_run :
    readAndInsertBooks id noFaults staleCluster acceptAll (some unreadableFirst)
        = ⟨[], .openFailed (lit "a.txt")⟩
    ∧ parseBookFile id upperCaseFile
        = .ok ⟨lit "Moby Dick", lit "Herman Melville", [lit "Para one."]⟩ := by
  constructor
  · rw [readAndInsertBooks, resetIndices_ok noFaults staleCluster rfl rfl rfl]
    decide
  · decide

/-- C14, amended. When the reset of the index succeeds, `readAndInsertBooks`
parses and loads the entries whose names end in `.txt` in listing order for as
long as every such entry parses: the files loaded are these entries with their
books, and the bulk calls made for each are those of `insertBookData` on its
book, the store having received the bulk writes of the files before it. This
holds whatever the store answers, so a failed bulk write does not keep any
later entry from being parsed and loaded. If every text file of the listing
parses, the run completes; the first text file that cannot be opened ends the
run, with only the files before it loaded. -/
theorem C14_load_in_listing_order (uni : GoString → GoString) (f : AdminFaults)
    (c : Cluster) (store : Store) (pre rest : List DirEntry)
    (hE : f.existsFails = false) (hD : f.deleteFails = false)
    (hC : f.createFails = false)
    (hpre : ∀ e ∈ pre, hasSuffixStr e.name (lit ".txt") = true →
      ∃ data book, e.content = some data ∧ parseBookFile uni data = .ok book)
    (hrest : rest = [] ∨ ∃ e post, rest = e :: post
      ∧ hasSuffixStr e.name (lit ".txt") = true ∧ e.content = none) :
    (readAndInsertBooks uni f c store (some (pre ++ rest))).loaded.map
        (fun x => (x.name, x.book)) = parsedBooks uni pre
    ∧ (∀ p x q, (readAndInsertBooks uni f c store (some (pre ++ rest))).loaded = p ++ x :: q →
        x.calls = insertBookData (fun h b => store (histOf p ++ h) b) x.book
        ∧ x.calls ≠ [])
    ∧ (readAndInsertBooks uni f c store (some (pre ++ rest))).ending
        = (match rest with
          | [] => RunEnd.completed
          | e :: _ => RunEnd.openFailed e.name) := by
  obtain ⟨acc1, e1, e2, e3⟩ := loadFiles_append uni store pre rest [] hpre
    (fun p x q h => by simp at h)
  have hrun : readAndInsertBooks uni f c store (some (pre ++ rest))
      = loadFiles uni store rest (histOf acc1) acc1 := by
    rw [readAndInsertBooks, resetIndices_ok f c hE hD hC]
    exact e1
  simp only [List.map_nil, List.nil_append] at e2
  have hne : ∀ p x q, acc1 = p ++ x :: q →
      x.calls = insertBookData (fun h b => store (histOf p ++ h) b) x.book
      ∧ x.calls ≠ [] := by
    intro p x q hq
    have hx := e3 p x q hq
    refine ⟨hx, ?_⟩
    rw [hx, insertBookData]
    obtain ⟨d, more, hd⟩ := insertLoop_extends (fun h b => store (histOf p ++ h) b)
      x.book.title x.book.author x.book.paragraphs 0 [] []
    rw [hd]
    simp
  rw [hrun]
  rcases hrest with hr | ⟨e, post, hr, hs, hc⟩
  · subst hr
    exact ⟨e2, hne, rfl⟩
  · subst hr
    rw [loadFiles]
    simp only [hs, if_true, hc]
    exact ⟨e2, hne, trivial⟩

set_option maxRecDepth 100000 in
/-- C14, amended, on `twoBooks` and the store that rejects every bulk write:
both text files are parsed and handed to `insertBookData` in listing order, the
bulk write of each is made and fails, and the run completes. -/
theorem C14_load_in_listing_order_witness :
    (noFaults.existsFails = false ∧ noFaults.deleteFails = false
      ∧ noFaults.createFails = false
      ∧ (∀ e ∈ twoBooks, hasSuffixStr e.name (lit ".txt") = true →
          ∃ data book, e.content = some data ∧ parseBookFile id data = .ok book)
      ∧ (([] : List DirEntry) = [] ∨ ∃ e post, ([] : List DirEntry) = e :: post
          ∧ hasSuffixStr e.name (lit ".txt") = true ∧ e.content = none))
    ∧ ((readAndInsertBooks id noFaults staleCluster rejectAll
          (some (twoBooks ++ []))).loaded.map (fun x => (x.name, x.book))
        = parsedBooks id twoBooks
      ∧ (∀ p x q, (readAndInsertBooks id noFaults staleCluster rejectAll
            (some (twoBooks ++ []))).loaded = p ++ x :: q →
          x.calls = insertBookData (fun h b => rejectAll (histOf p ++ h) b) x.book
          ∧ x.calls ≠ [])
      ∧ (readAndInsertBooks id noFaults staleCluster rejectAll
          (some (twoBooks ++ []))).ending = RunEnd.completed)
    ∧ readAndInsertBooks id noFaults staleCluster rejectAll (some (twoBooks ++ []))
        = ⟨[⟨lit "a.txt", ⟨lit "Moby Dick", lit "Herman Melville", [lit "Para one."]⟩,
              [⟨[mkDoc (lit "Moby Dick") (lit "Herman Melville") 0 (lit "Para one.")],
                false⟩]⟩,
            ⟨lit "b.txt", ⟨lit "A", lit "B", [[]]⟩,
              [⟨[mkDoc (lit "A") (lit "B") 0 []], false⟩]⟩],
           RunEnd.completed⟩ :=
  have hpre : ∀ e ∈ twoBooks, hasSuffixStr e.name (lit ".txt") = true →
      ∃ data book, e.content = some data ∧ parseBookFile id data = .ok book := by
    intro e he hs
    simp only [twoBooks, List.mem_cons, List.mem_singleton, List.not_mem_nil, or_false] at he
    rcases he with rfl | rfl | rfl
    · exact ⟨upperCaseFile, ⟨lit "Moby Dick", lit "Herman Melville", [lit "Para one."]⟩,
        rfl, by decide⟩
    · exact absurd hs (by decide)
    · exact ⟨emptyBodyFile, ⟨lit "A", lit "B", [[]]⟩, rfl, by decide⟩
  have hrest : ([] : List DirEntry) = [] ∨ ∃ e post, ([] : List DirEntry) = e :: post
      ∧ hasSuffixStr e.name (lit ".txt") = true ∧ e.content = none := Or.inl rfl
  have hrun : readAndInsertBooks id noFaults staleCluster rejectAll (some (twoBooks ++ []))
      = ⟨[⟨lit "a.txt", ⟨lit "Moby Dick", lit "Herman Melville", [lit "Para one."]⟩,
            [⟨[mkDoc (lit "Moby Dick") (lit "Herman Melville") 0 (lit "Para one.")],
              false⟩]⟩,
          ⟨lit "b.txt", ⟨lit "A", lit "B", [[]]⟩,
            [⟨[mkDoc (lit "A") (lit "B") 0 []], false⟩]⟩],
         RunEnd.completed⟩ := by
    rw [readAndInsertBooks, resetIndices_ok noFaults staleCluster rfl rfl rfl]
    decide
  ⟨⟨rfl, rfl, rfl, hpre, hrest⟩,
    C14_load_in_listing_order id noFaults staleCluster rejectAll twoBooks []
      rfl rfl rfl hpre hrest, hrun⟩

end ESProject
